import Mathlib

/-! Grbl serial layer (serial.c)

A shallow embedding of the RX/TX ring buffers and of the real-time command
demultiplexer of `serial.c`, followed by theorems about them.

* 8-bit variables (`uint8_t`) are natural numbers; every place where the C code
  stores a computed value into an 8-bit variable is written with `u8` or an
  explicit `% 256`.
* The constants that `serial.c` takes from `grbl.h` (buffer sizes, command bytes,
  flag masks, the two `#ifdef` switches) are the fields of `Config`.
* The byte arrays are functions from an index to a byte.
* The UART receive FIFO is the list of characters that `UARTCharGetNonBlocking`
  hands out before it answers `-1`.
* The UART transmit FIFO is the number of characters `UARTCharPutNonBlocking`
  still accepts; the transmit handler returns the log of its send attempts.
* The wait loop of `serial_write` is given the interrupts that occur between two
  evaluations of its condition; a call that is still in the loop when they are
  used up is reported as waiting.
* Functions of the system layer that `serial.c` calls but does not define
  (`mc_reset`, `system_set_exec_*_flag`) are modelled from the specification and
  marked as such.
-/

namespace Grbl

/-! ## Constants of grbl.h -/

/-- The compile-time constants used by `serial.c`; they are declared in headers
reached through `grbl.h`, so they are parameters of the development. -/
structure Config where
  RX_BUFFER_SIZE : Nat
  TX_BUFFER_SIZE : Nat
  SERIAL_NO_DATA : Nat
  DEBUG : Bool
  ENABLE_M7 : Bool
  CMD_RESET : Nat
  CMD_STATUS_REPORT : Nat
  CMD_CYCLE_START : Nat
  CMD_FEED_HOLD : Nat
  CMD_SAFETY_DOOR : Nat
  CMD_JOG_CANCEL : Nat
  CMD_DEBUG_REPORT : Nat
  CMD_FEED_OVR_RESET : Nat
  CMD_FEED_OVR_COARSE_PLUS : Nat
  CMD_FEED_OVR_COARSE_MINUS : Nat
  CMD_FEED_OVR_FINE_PLUS : Nat
  CMD_FEED_OVR_FINE_MINUS : Nat
  CMD_RAPID_OVR_RESET : Nat
  CMD_RAPID_OVR_MEDIUM : Nat
  CMD_RAPID_OVR_LOW : Nat
  CMD_SPINDLE_OVR_RESET : Nat
  CMD_SPINDLE_OVR_COARSE_PLUS : Nat
  CMD_SPINDLE_OVR_COARSE_MINUS : Nat
  CMD_SPINDLE_OVR_FINE_PLUS : Nat
  CMD_SPINDLE_OVR_FINE_MINUS : Nat
  CMD_SPINDLE_OVR_STOP : Nat
  CMD_COOLANT_FLOOD_OVR_TOGGLE : Nat
  CMD_COOLANT_MIST_OVR_TOGGLE : Nat
  EXEC_STATUS_REPORT : Nat
  EXEC_CYCLE_START : Nat
  EXEC_FEED_HOLD : Nat
  EXEC_RESET : Nat
  EXEC_SAFETY_DOOR : Nat
  EXEC_MOTION_CANCEL : Nat
  EXEC_DEBUG_REPORT : Nat
  EXEC_FEED_OVR_RESET : Nat
  EXEC_FEED_OVR_COARSE_PLUS : Nat
  EXEC_FEED_OVR_COARSE_MINUS : Nat
  EXEC_FEED_OVR_FINE_PLUS : Nat
  EXEC_FEED_OVR_FINE_MINUS : Nat
  EXEC_RAPID_OVR_RESET : Nat
  EXEC_RAPID_OVR_MEDIUM : Nat
  EXEC_RAPID_OVR_LOW : Nat
  EXEC_SPINDLE_OVR_RESET : Nat
  EXEC_SPINDLE_OVR_COARSE_PLUS : Nat
  EXEC_SPINDLE_OVR_COARSE_MINUS : Nat
  EXEC_SPINDLE_OVR_FINE_PLUS : Nat
  EXEC_SPINDLE_OVR_FINE_MINUS : Nat
  EXEC_SPINDLE_OVR_STOP : Nat
  EXEC_COOLANT_FLOOD_OVR_TOGGLE : Nat
  EXEC_COOLANT_MIST_OVR_TOGGLE : Nat
  STATE_JOG : Nat

/-- `#define RX_RING_BUFFER (RX_BUFFER_SIZE+1)` -/
def RX_RING_BUFFER (c : Config) : Nat := c.RX_BUFFER_SIZE + 1

/-- `#define TX_RING_BUFFER (TX_BUFFER_SIZE+1)` -/
def TX_RING_BUFFER (c : Config) : Nat := c.TX_BUFFER_SIZE + 1

/-- The values of the constants in the stock Grbl 1.1 headers, with `DEBUG` and
`ENABLE_M7` left undefined. Used to instantiate the general theorems. -/
def grbl_defaults : Config where
  RX_BUFFER_SIZE := 128
  TX_BUFFER_SIZE := 104
  SERIAL_NO_DATA := 0xff
  DEBUG := false
  ENABLE_M7 := false
  CMD_RESET := 0x18
  CMD_STATUS_REPORT := 0x3f
  CMD_CYCLE_START := 0x7e
  CMD_FEED_HOLD := 0x21
  CMD_SAFETY_DOOR := 0x84
  CMD_JOG_CANCEL := 0x85
  CMD_DEBUG_REPORT := 0x86
  CMD_FEED_OVR_RESET := 0x90
  CMD_FEED_OVR_COARSE_PLUS := 0x91
  CMD_FEED_OVR_COARSE_MINUS := 0x92
  CMD_FEED_OVR_FINE_PLUS := 0x93
  CMD_FEED_OVR_FINE_MINUS := 0x94
  CMD_RAPID_OVR_RESET := 0x95
  CMD_RAPID_OVR_MEDIUM := 0x96
  CMD_RAPID_OVR_LOW := 0x97
  CMD_SPINDLE_OVR_RESET := 0x99
  CMD_SPINDLE_OVR_COARSE_PLUS := 0x9a
  CMD_SPINDLE_OVR_COARSE_MINUS := 0x9b
  CMD_SPINDLE_OVR_FINE_PLUS := 0x9c
  CMD_SPINDLE_OVR_FINE_MINUS := 0x9d
  CMD_SPINDLE_OVR_STOP := 0x9e
  CMD_COOLANT_FLOOD_OVR_TOGGLE := 0xa0
  CMD_COOLANT_MIST_OVR_TOGGLE := 0xa1
  EXEC_STATUS_REPORT := 1
  EXEC_CYCLE_START := 2
  EXEC_FEED_HOLD := 8
  EXEC_RESET := 16
  EXEC_SAFETY_DOOR := 32
  EXEC_MOTION_CANCEL := 64
  EXEC_DEBUG_REPORT := 1
  EXEC_FEED_OVR_RESET := 1
  EXEC_FEED_OVR_COARSE_PLUS := 2
  EXEC_FEED_OVR_COARSE_MINUS := 4
  EXEC_FEED_OVR_FINE_PLUS := 8
  EXEC_FEED_OVR_FINE_MINUS := 16
  EXEC_RAPID_OVR_RESET := 32
  EXEC_RAPID_OVR_MEDIUM := 64
  EXEC_RAPID_OVR_LOW := 128
  EXEC_SPINDLE_OVR_RESET := 1
  EXEC_SPINDLE_OVR_COARSE_PLUS := 2
  EXEC_SPINDLE_OVR_COARSE_MINUS := 4
  EXEC_SPINDLE_OVR_FINE_PLUS := 8
  EXEC_SPINDLE_OVR_FINE_MINUS := 16
  EXEC_SPINDLE_OVR_STOP := 32
  EXEC_COOLANT_FLOOD_OVR_TOGGLE := 64
  EXEC_COOLANT_MIST_OVR_TOGGLE := 128
  STATE_JOG := 32

/-! ## Program state -/

/-- The global variables read or written by `serial.c`. The three `serial_rx_*`
and the three `serial_tx_*` fields are the file's own globals; the `sys_*` fields
are the shared flag bytes of the system layer. `mc_reset_calls` is a ghost counter
of the calls made to `mc_reset`. -/
structure State where
  serial_rx_buffer : Nat → Nat
  serial_rx_buffer_head : Nat
  serial_rx_buffer_tail : Nat
  serial_tx_buffer : Nat → Nat
  serial_tx_buffer_head : Nat
  serial_tx_buffer_tail : Nat
  sys_rt_exec_state : Nat
  sys_rt_exec_motion_override : Nat
  sys_rt_exec_accessory_override : Nat
  sys_rt_exec_debug : Nat
  sys_state : Nat
  mc_reset_calls : Nat

/-- The state after static initialisation: all indices `0`, zeroed arrays, no
flag pending. -/
def State.initial : State where
  serial_rx_buffer := fun _ => 0
  serial_rx_buffer_head := 0
  serial_rx_buffer_tail := 0
  serial_tx_buffer := fun _ => 0
  serial_tx_buffer_head := 0
  serial_tx_buffer_tail := 0
  sys_rt_exec_state := 0
  sys_rt_exec_motion_override := 0
  sys_rt_exec_accessory_override := 0
  sys_rt_exec_debug := 0
  sys_state := 0
  mc_reset_calls := 0

/-- Conversion of a C `int` result to `uint8_t`. -/
def u8 (i : Int) : Nat := (i % 256).toNat

/-! ## Buffer diagnostics -/

/-- `serial_get_rx_buffer_available` (serial.c 37-42). -/
def serial_get_rx_buffer_available (c : Config) (s : State) : Nat :=
  let rtail := s.serial_rx_buffer_tail
  if s.serial_rx_buffer_head ≥ rtail then
    u8 ((c.RX_BUFFER_SIZE : Int) - ((s.serial_rx_buffer_head : Int) - (rtail : Int)))
  else
    u8 ((rtail : Int) - (s.serial_rx_buffer_head : Int) - 1)

/-- `serial_get_rx_buffer_count` (serial.c 47-52). -/
def serial_get_rx_buffer_count (c : Config) (s : State) : Nat :=
  let rtail := s.serial_rx_buffer_tail
  if s.serial_rx_buffer_head ≥ rtail then
    u8 ((s.serial_rx_buffer_head : Int) - (rtail : Int))
  else
    u8 ((c.RX_BUFFER_SIZE : Int) - ((rtail : Int) - (s.serial_rx_buffer_head : Int)))

/-- `serial_get_tx_buffer_count` (serial.c 57-62). -/
def serial_get_tx_buffer_count (c : Config) (s : State) : Nat :=
  let ttail := s.serial_tx_buffer_tail
  if s.serial_tx_buffer_head ≥ ttail then
    u8 ((s.serial_tx_buffer_head : Int) - (ttail : Int))
  else
    u8 ((TX_RING_BUFFER c : Int) - ((ttail : Int) - (s.serial_tx_buffer_head : Int)))

/-! ## Reading -/

/-- `serial_read` (serial.c 175-195): the returned byte and the new state. -/
def serial_read (c : Config) (s : State) : Nat × State :=
  let tail := s.serial_rx_buffer_tail
  if s.serial_rx_buffer_head = tail then
    (c.SERIAL_NO_DATA, s)
  else
    let data := s.serial_rx_buffer tail
    let tail := (tail + 1) % 256
    let tail := if tail = RX_RING_BUFFER c then 0 else tail
    (data, { s with serial_rx_buffer_tail := tail })

/-- `serial_reset_read_buffer` (serial.c 340-343). -/
def serial_reset_read_buffer (s : State) : State :=
  { s with serial_rx_buffer_tail := s.serial_rx_buffer_head }

/-! ## System-layer helpers called by the receive handler -/

/-- Modelled from the spec: `system_set_exec_state_flag` is defined outside
`serial.c`; per §3 the execution-state flags are "set (logical OR) by the
classifier", so the helper ORs its mask into `sys_rt_exec_state`. -/
def system_set_exec_state_flag (s : State) (mask : Nat) : State :=
  { s with sys_rt_exec_state := s.sys_rt_exec_state ||| mask }

/-- Modelled from the spec: `system_set_exec_motion_override_flag` is defined
outside `serial.c`; per §3 it ORs its mask into the motion-override flag set. -/
def system_set_exec_motion_override_flag (s : State) (mask : Nat) : State :=
  { s with sys_rt_exec_motion_override := s.sys_rt_exec_motion_override ||| mask }

/-- Modelled from the spec: `system_set_exec_accessory_override_flag` is defined
outside `serial.c`; per §3 it ORs its mask into the accessory-override flag set. -/
def system_set_exec_accessory_override_flag (s : State) (mask : Nat) : State :=
  { s with sys_rt_exec_accessory_override := s.sys_rt_exec_accessory_override ||| mask }

/-- Modelled from the spec: `mc_reset` is defined outside `serial.c`; per §8 the
reset byte "sets the reset flag", so the routine ORs `EXEC_RESET` into
`sys_rt_exec_state`. Each call is also counted in the ghost field
`mc_reset_calls`. -/
def mc_reset (c : Config) (s : State) : State :=
  { s with sys_rt_exec_state := s.sys_rt_exec_state ||| c.EXEC_RESET,
           mc_reset_calls := s.mc_reset_calls + 1 }

/-! ## Receive handler -/

/-- The inner `switch (data)` of `SERIAL_RX_ISR` (serial.c 225-296), entered when
`data > 0x7F`. The cases are tried in source order (the labels of a `switch` are
distinct, so the order does not matter); a byte that matches no label falls out
of the switch. `bit_true(x, mask)` is the macro `x |= mask`. -/
def rx_extended (c : Config) (s : State) (data : Nat) : State :=
  if data = c.CMD_SAFETY_DOOR then
    system_set_exec_state_flag s c.EXEC_SAFETY_DOOR
  else if data = c.CMD_JOG_CANCEL then
    if s.sys_state &&& c.STATE_JOG ≠ 0 then
      system_set_exec_state_flag s c.EXEC_MOTION_CANCEL
    else s
  else if c.DEBUG = true ∧ data = c.CMD_DEBUG_REPORT then
    { s with sys_rt_exec_debug := s.sys_rt_exec_debug ||| c.EXEC_DEBUG_REPORT }
  else if data = c.CMD_FEED_OVR_RESET then
    system_set_exec_motion_override_flag s c.EXEC_FEED_OVR_RESET
  else if data = c.CMD_FEED_OVR_COARSE_PLUS then
    system_set_exec_motion_override_flag s c.EXEC_FEED_OVR_COARSE_PLUS
  else if data = c.CMD_FEED_OVR_COARSE_MINUS then
    system_set_exec_motion_override_flag s c.EXEC_FEED_OVR_COARSE_MINUS
  else if data = c.CMD_FEED_OVR_FINE_PLUS then
    system_set_exec_motion_override_flag s c.EXEC_FEED_OVR_FINE_PLUS
  else if data = c.CMD_FEED_OVR_FINE_MINUS then
    system_set_exec_motion_override_flag s c.EXEC_FEED_OVR_FINE_MINUS
  else if data = c.CMD_RAPID_OVR_RESET then
    system_set_exec_motion_override_flag s c.EXEC_RAPID_OVR_RESET
  else if data = c.CMD_RAPID_OVR_MEDIUM then
    system_set_exec_motion_override_flag s c.EXEC_RAPID_OVR_MEDIUM
  else if data = c.CMD_RAPID_OVR_LOW then
    system_set_exec_motion_override_flag s c.EXEC_RAPID_OVR_LOW
  else if data = c.CMD_SPINDLE_OVR_RESET then
    system_set_exec_accessory_override_flag s c.EXEC_SPINDLE_OVR_RESET
  else if data = c.CMD_SPINDLE_OVR_COARSE_PLUS then
    system_set_exec_accessory_override_flag s c.EXEC_SPINDLE_OVR_COARSE_PLUS
  else if data = c.CMD_SPINDLE_OVR_COARSE_MINUS then
    system_set_exec_accessory_override_flag s c.EXEC_SPINDLE_OVR_COARSE_MINUS
  else if data = c.CMD_SPINDLE_OVR_FINE_PLUS then
    system_set_exec_accessory_override_flag s c.EXEC_SPINDLE_OVR_FINE_PLUS
  else if data = c.CMD_SPINDLE_OVR_FINE_MINUS then
    system_set_exec_accessory_override_flag s c.EXEC_SPINDLE_OVR_FINE_MINUS
  else if data = c.CMD_SPINDLE_OVR_STOP then
    system_set_exec_accessory_override_flag s c.EXEC_SPINDLE_OVR_STOP
  else if data = c.CMD_COOLANT_FLOOD_OVR_TOGGLE then
    system_set_exec_accessory_override_flag s c.EXEC_COOLANT_FLOOD_OVR_TOGGLE
  else if c.ENABLE_M7 = true ∧ data = c.CMD_COOLANT_MIST_OVR_TOGGLE then
    system_set_exec_accessory_override_flag s c.EXEC_COOLANT_MIST_OVR_TOGGLE
  else s

/-- The `else` branch of the `default:` case (serial.c 300-313): write the
character to the ring buffer unless it is full. -/
def rx_store (c : Config) (s : State) (data : Nat) : State :=
  let next_head := (s.serial_rx_buffer_head + 1) % 256
  let next_head := if next_head = RX_RING_BUFFER c then 0 else next_head
  if next_head ≠ s.serial_rx_buffer_tail then
    { s with
      serial_rx_buffer := Function.update s.serial_rx_buffer s.serial_rx_buffer_head (data % 256),
      serial_rx_buffer_head := next_head }
  else s

/-- One iteration of the `while (1)` loop of `SERIAL_RX_ISR` for a character
`data` delivered by `UARTCharGetNonBlocking` (serial.c 208-314). -/
def rx_byte (c : Config) (s : State) (data : Nat) : State :=
  if data = c.CMD_RESET then mc_reset c s
  else if data = c.CMD_STATUS_REPORT then system_set_exec_state_flag s c.EXEC_STATUS_REPORT
  else if data = c.CMD_CYCLE_START then system_set_exec_state_flag s c.EXEC_CYCLE_START
  else if data = c.CMD_FEED_HOLD then system_set_exec_state_flag s c.EXEC_FEED_HOLD
  else if data > 0x7F then rx_extended c s data
  else rx_store c s data

/-- `SERIAL_RX_ISR` (serial.c 197-316). `uart` is the sequence of characters the
UART receive FIFO hands out through `UARTCharGetNonBlocking` before it answers
`-1`; the handler processes them in order and returns on `-1`. -/
def SERIAL_RX_ISR (c : Config) : List Nat → State → State
  | [], s => s
  | data :: uart, s => SERIAL_RX_ISR c uart (rx_byte c s data)

/-! ## The case labels of the receive handler -/

/-- The labels of the outer `switch` of `SERIAL_RX_ISR` (serial.c 210-221). -/
def low_commands (c : Config) : List Nat :=
  [c.CMD_RESET, c.CMD_STATUS_REPORT, c.CMD_CYCLE_START, c.CMD_FEED_HOLD]

/-- The labels of the inner `switch` of `SERIAL_RX_ISR` (serial.c 227-295) that
are compiled in: `CMD_DEBUG_REPORT` only under `DEBUG`, and
`CMD_COOLANT_MIST_OVR_TOGGLE` only under `ENABLE_M7`. -/
def extended_commands (c : Config) : List Nat :=
  [c.CMD_SAFETY_DOOR, c.CMD_JOG_CANCEL]
    ++ (if c.DEBUG = true then [c.CMD_DEBUG_REPORT] else [])
    ++ [c.CMD_FEED_OVR_RESET, c.CMD_FEED_OVR_COARSE_PLUS, c.CMD_FEED_OVR_COARSE_MINUS,
        c.CMD_FEED_OVR_FINE_PLUS, c.CMD_FEED_OVR_FINE_MINUS, c.CMD_RAPID_OVR_RESET,
        c.CMD_RAPID_OVR_MEDIUM, c.CMD_RAPID_OVR_LOW, c.CMD_SPINDLE_OVR_RESET,
        c.CMD_SPINDLE_OVR_COARSE_PLUS, c.CMD_SPINDLE_OVR_COARSE_MINUS,
        c.CMD_SPINDLE_OVR_FINE_PLUS, c.CMD_SPINDLE_OVR_FINE_MINUS, c.CMD_SPINDLE_OVR_STOP,
        c.CMD_COOLANT_FLOOD_OVR_TOGGLE]
    ++ (if c.ENABLE_M7 = true then [c.CMD_COOLANT_MIST_OVR_TOGGLE] else [])

/-- What the command constants must satisfy for the two `switch` statements to
mean what they say: the labels of each `switch` are pairwise distinct (C rejects
a duplicate label), the four outer labels are in the low range and the inner
labels in the extended range (an inner label at most `0x7F` could never match,
the inner `switch` being guarded by `data > 0x7F`). -/
def Config.labels_ok (c : Config) : Prop :=
  (low_commands c).Nodup ∧ (∀ b ∈ low_commands c, b ≤ 0x7F)
    ∧ (extended_commands c).Nodup ∧ (∀ b ∈ extended_commands c, 0x7F < b)

instance (c : Config) : Decidable c.labels_ok := by
  unfold Config.labels_ok
  infer_instance

/-- The three flag bytes the receive handler sets through the system layer. -/
inductive FlagSet where
  | exec_state
  | motion_override
  | accessory_override
  deriving DecidableEq, Repr

/-- The current value of a flag byte. -/
def State.flags (s : State) : FlagSet → Nat
  | .exec_state => s.sys_rt_exec_state
  | .motion_override => s.sys_rt_exec_motion_override
  | .accessory_override => s.sys_rt_exec_accessory_override

/-- The `case` labels of the outer `switch` of `SERIAL_RX_ISR` whose body is a
single `system_set_exec_state_flag(mask)` call (serial.c 213-221), each with the
flag byte the called helper writes and the mask passed to it. -/
def low_flag_commands (c : Config) : List (Nat × FlagSet × Nat) :=
  [ (c.CMD_STATUS_REPORT, .exec_state, c.EXEC_STATUS_REPORT),
    (c.CMD_CYCLE_START, .exec_state, c.EXEC_CYCLE_START),
    (c.CMD_FEED_HOLD, .exec_state, c.EXEC_FEED_HOLD) ]

/-- The `case` labels of the inner `switch` of `SERIAL_RX_ISR` whose body is a
single unconditional `system_set_exec_*_flag(mask)` call (all inner labels except
`CMD_JOG_CANCEL` and `CMD_DEBUG_REPORT`), each with the flag byte the called
helper writes and the mask passed to it. -/
def extended_flag_commands (c : Config) : List (Nat × FlagSet × Nat) :=
  [ (c.CMD_SAFETY_DOOR, .exec_state, c.EXEC_SAFETY_DOOR),
    (c.CMD_FEED_OVR_RESET, .motion_override, c.EXEC_FEED_OVR_RESET),
    (c.CMD_FEED_OVR_COARSE_PLUS, .motion_override, c.EXEC_FEED_OVR_COARSE_PLUS),
    (c.CMD_FEED_OVR_COARSE_MINUS, .motion_override, c.EXEC_FEED_OVR_COARSE_MINUS),
    (c.CMD_FEED_OVR_FINE_PLUS, .motion_override, c.EXEC_FEED_OVR_FINE_PLUS),
    (c.CMD_FEED_OVR_FINE_MINUS, .motion_override, c.EXEC_FEED_OVR_FINE_MINUS),
    (c.CMD_RAPID_OVR_RESET, .motion_override, c.EXEC_RAPID_OVR_RESET),
    (c.CMD_RAPID_OVR_MEDIUM, .motion_override, c.EXEC_RAPID_OVR_MEDIUM),
    (c.CMD_RAPID_OVR_LOW, .motion_override, c.EXEC_RAPID_OVR_LOW),
    (c.CMD_SPINDLE_OVR_RESET, .accessory_override, c.EXEC_SPINDLE_OVR_RESET),
    (c.CMD_SPINDLE_OVR_COARSE_PLUS, .accessory_override, c.EXEC_SPINDLE_OVR_COARSE_PLUS),
    (c.CMD_SPINDLE_OVR_COARSE_MINUS, .accessory_override, c.EXEC_SPINDLE_OVR_COARSE_MINUS),
    (c.CMD_SPINDLE_OVR_FINE_PLUS, .accessory_override, c.EXEC_SPINDLE_OVR_FINE_PLUS),
    (c.CMD_SPINDLE_OVR_FINE_MINUS, .accessory_override, c.EXEC_SPINDLE_OVR_FINE_MINUS),
    (c.CMD_SPINDLE_OVR_STOP, .accessory_override, c.EXEC_SPINDLE_OVR_STOP),
    (c.CMD_COOLANT_FLOOD_OVR_TOGGLE, .accessory_override, c.EXEC_COOLANT_FLOOD_OVR_TOGGLE) ]
    ++ (if c.ENABLE_M7 = true then
          [(c.CMD_COOLANT_MIST_OVR_TOGGLE, .accessory_override, c.EXEC_COOLANT_MIST_OVR_TOGGLE)]
        else [])

/-- All `case` labels of `SERIAL_RX_ISR` whose body is a single unconditional
flag request: every label except `CMD_RESET`, `CMD_JOG_CANCEL` and
`CMD_DEBUG_REPORT`. -/
def flag_commands (c : Config) : List (Nat × FlagSet × Nat) :=
  low_flag_commands c ++ extended_flag_commands c

/-- The RX ring buffer part of the state: contents, head and tail. -/
def State.rx (s : State) : (Nat → Nat) × Nat × Nat :=
  (s.serial_rx_buffer, s.serial_rx_buffer_head, s.serial_rx_buffer_tail)

/-- The TX ring buffer part of the state: contents, head and tail. -/
def State.tx (s : State) : (Nat → Nat) × Nat × Nat :=
  (s.serial_tx_buffer, s.serial_tx_buffer_head, s.serial_tx_buffer_tail)

/-- The state with one flag byte replaced. -/
def State.set_flags (s : State) : FlagSet → Nat → State
  | .exec_state, v => { s with sys_rt_exec_state := v }
  | .motion_override, v => { s with sys_rt_exec_motion_override := v }
  | .accessory_override, v => { s with sys_rt_exec_accessory_override := v }

/-- Two states agree on everything except the flag bytes. -/
def only_flags_differ (s t : State) : Prop :=
  t.rx = s.rx ∧ t.tx = s.tx ∧ t.sys_state = s.sys_state ∧ t.mc_reset_calls = s.mc_reset_calls

/-! ## The RX buffer as a queue -/

/-- The bytes stored in the slots `a, a+1, ..., b-1` of a buffer. -/
def slice (buf : Nat → Nat) (a b : Nat) : List Nat :=
  (List.range' a (b - a)).map buf

/-- The pending bytes of the RX ring buffer, oldest first: the slots from `tail`
up to `head`, continuing at slot `0` after the last slot when `head` has wrapped
below `tail`. -/
def rx_pending (c : Config) (s : State) : List Nat :=
  if s.serial_rx_buffer_tail ≤ s.serial_rx_buffer_head then
    slice s.serial_rx_buffer s.serial_rx_buffer_tail s.serial_rx_buffer_head
  else
    slice s.serial_rx_buffer s.serial_rx_buffer_tail (RX_RING_BUFFER c)
      ++ slice s.serial_rx_buffer 0 s.serial_rx_buffer_head

/-- Both RX indices are valid slots of `serial_rx_buffer`. -/
def rx_in_range (c : Config) (s : State) : Prop :=
  s.serial_rx_buffer_head < RX_RING_BUFFER c ∧ s.serial_rx_buffer_tail < RX_RING_BUFFER c

instance (c : Config) (s : State) : Decidable (rx_in_range c s) := by
  unfold rx_in_range
  infer_instance

/-- A data byte: at most `0x7F` and none of the four labels of the outer
`switch`; these are the characters that reach the storing branch. -/
def is_data_byte (c : Config) (b : Nat) : Bool :=
  decide (b ≤ 0x7F) && decide (b ∉ low_commands c)

/-- An operation on the RX buffer: the receive handler taking one character from
the UART, or the main program calling `serial_read`. -/
inductive RxOp where
  | push (b : Nat)
  | read
  deriving DecidableEq, Repr

/-- The characters pushed by a sequence of operations, in order. -/
def pushed : List RxOp → List Nat
  | [] => []
  | .push b :: ops => b :: pushed ops
  | .read :: ops => pushed ops

/-- Runs a sequence of operations on the code: `push b` is `SERIAL_RX_ISR` with
the UART holding `b`, `read` is `serial_read`. Returns the bytes returned by the
`serial_read` calls that found the buffer non-empty (`head ≠ tail`), in order,
and the final state. -/
def rx_run (c : Config) : List RxOp → State → List Nat × State
  | [], s => ([], s)
  | .push b :: ops, s => rx_run c ops (SERIAL_RX_ISR c [b] s)
  | .read :: ops, s =>
    let r := serial_read c s
    let rest := rx_run c ops r.2
    if s.serial_rx_buffer_head = s.serial_rx_buffer_tail then rest
    else (r.1 :: rest.1, rest.2)

/-- The abstract list queue of the specification: `push` appends at the back,
`read` removes the front (and returns nothing when the queue is empty). Returns
the bytes handed out and the final queue. -/
def queue_run : List RxOp → List Nat → List Nat × List Nat
  | [], q => ([], q)
  | .push b :: ops, q => queue_run ops (q ++ [b])
  | .read :: ops, [] => queue_run ops []
  | .read :: ops, x :: q => ((queue_run ops q).1.cons x, (queue_run ops q).2)

/-- The number of pending bytes never exceeds `cap` along the sequence of
operations, starting with `n` bytes pending. -/
def within_capacity (cap : Nat) : List RxOp → Nat → Bool
  | [], n => decide (n ≤ cap)
  | .push _ :: ops, n => decide (n + 1 ≤ cap) && within_capacity cap ops (n + 1)
  | .read :: ops, n => decide (n ≤ cap) && within_capacity cap ops (n - 1)

/-- The main program reading until `serial_read` answers `SERIAL_NO_DATA`:
the bytes read before that answer and the final state. `none` when `fuel` calls
were not enough to see `SERIAL_NO_DATA`. -/
def serial_read_all (c : Config) : Nat → State → Option (List Nat × State)
  | 0, _ => none
  | fuel + 1, s =>
    let r := serial_read c s
    if r.1 = c.SERIAL_NO_DATA then some ([], r.2)
    else (serial_read_all c fuel r.2).map (fun p => (r.1 :: p.1, p.2))

/-! ## Transmitting -/

/-- The `while (1)` loop of `SERIAL_TX_ISR` (serial.c 153-170). `tail` is the local
copy of the tail index and `k` the number of characters the UART transmit FIFO
still accepts: `UARTCharPutNonBlocking` answers `true` (and takes the character)
`k` more times and `false` after that. Returns the final state and the log of
the calls made to `UARTCharPutNonBlocking`, each with the character passed and
the answer. -/
def tx_drain (c : Config) : Nat → Nat → State → State × List (Nat × Bool)
  | 0, tail, s =>
    if tail = s.serial_tx_buffer_head then (s, [])
    else (s, [(s.serial_tx_buffer tail, false)])
  | k + 1, tail, s =>
    if tail = s.serial_tx_buffer_head then (s, [])
    else
      let tail1 := (tail + 1) % 256
      let tail1 := if tail1 = TX_RING_BUFFER c then 0 else tail1
      let r := tx_drain c k tail1 { s with serial_tx_buffer_tail := tail1 }
      (r.1, (s.serial_tx_buffer tail, true) :: r.2)

/-- `SERIAL_TX_ISR` (serial.c 148-171), with a UART that accepts `k` characters:
the final state and the log of send attempts. -/
def SERIAL_TX_ISR (c : Config) (k : Nat) (s : State) : State × List (Nat × Bool) :=
  tx_drain c k s.serial_tx_buffer_tail s

/-- One UART interrupt as seen by `UART0IntHandler`: `tx = some k` when the status
has `UART_INT_TX` (the UART then accepts `k` characters), `rx = some uart` when it
has `UART_INT_RX` (the receive FIFO then holds `uart`). -/
structure Interrupt where
  tx : Option Nat
  rx : Option (List Nat)

/-- `UART0IntHandler` (serial.c 318-339): runs `SERIAL_TX_ISR` if the status has
`UART_INT_TX`, then `SERIAL_RX_ISR` if it has `UART_INT_RX`. Returns the final
state and the log of send attempts. -/
def UART0IntHandler (c : Config) (i : Interrupt) (s : State) : State × List (Nat × Bool) :=
  let r := match i.tx with
    | some k => SERIAL_TX_ISR c k s
    | none => (s, [])
  match i.rx with
  | some uart => (SERIAL_RX_ISR c uart r.1, r.2)
  | none => r

/-- How a call of `serial_write` stands once the interrupts it was given have
all occurred: it has returned, or it is still in its wait loop. Both carry the
state and the log of send attempts so far. -/
inductive WriteOutcome where
  | returned (s : State) (log : List (Nat × Bool))
  | waiting (s : State) (log : List (Nat × Bool))

/-- The state carried by an outcome. -/
def WriteOutcome.state : WriteOutcome → State
  | .returned s _ => s
  | .waiting s _ => s

/-- The log of send attempts carried by an outcome. -/
def WriteOutcome.log : WriteOutcome → List (Nat × Bool)
  | .returned _ log => log
  | .waiting _ log => log

/-- Whether the call has returned. -/
def WriteOutcome.has_returned : WriteOutcome → Bool
  | .returned _ _ => true
  | .waiting _ _ => false

/-- The end of `serial_write` (serial.c 137-143): store the data, advance the head,
run `SERIAL_TX_ISR` with a UART that accepts `k` characters. -/
def serial_write_store (c : Config) (next_head data k : Nat) (s : State)
    (log : List (Nat × Bool)) : WriteOutcome :=
  let s1 : State :=
    { s with
      serial_tx_buffer := Function.update s.serial_tx_buffer s.serial_tx_buffer_head data,
      serial_tx_buffer_head := next_head }
  .returned (SERIAL_TX_ISR c k s1).1 (log ++ (SERIAL_TX_ISR c k s1).2)

/-- The wait loop of `serial_write` (serial.c 132-135) followed by the end of the
function. The list holds the interrupts that occur while the function waits, one
entry between two successive evaluations of the loop condition (an entry with
neither `tx` nor `rx` stands for no interrupt). When the list is used up and the
loop condition still holds with the reset flag clear, the call is still
waiting. -/
def serial_write_wait (c : Config) (next_head data k : Nat) :
    List Interrupt → State → List (Nat × Bool) → WriteOutcome
  | [], s, log =>
    if next_head = s.serial_tx_buffer_tail then
      if s.sys_rt_exec_state &&& c.EXEC_RESET ≠ 0 then .returned s log
      else .waiting s log
    else serial_write_store c next_head data k s log
  | i :: sched, s, log =>
    if next_head = s.serial_tx_buffer_tail then
      if s.sys_rt_exec_state &&& c.EXEC_RESET ≠ 0 then .returned s log
      else
        serial_write_wait c next_head data k sched (UART0IntHandler c i s).1
          (log ++ (UART0IntHandler c i s).2)
    else serial_write_store c next_head data k s log

/-- `serial_write` (serial.c 126-144). `data` is the 8-bit argument, `sched` the
interrupts that occur while the function waits for space, `k` the number of
characters the UART accepts when the function finally runs `SERIAL_TX_ISR`. -/
def serial_write (c : Config) (data k : Nat) (sched : List Interrupt) (s : State) :
    WriteOutcome :=
  let next_head := (s.serial_tx_buffer_head + 1) % 256
  let next_head := if next_head = TX_RING_BUFFER c then 0 else next_head
  serial_write_wait c next_head (data % 256) k sched s []

/-! ## Ring buffers as queues -/

/-- The pending bytes of a ring buffer with `ring` slots, oldest first: the slots
from `tail` up to `head`, continuing at slot `0` after the last slot when `head`
has wrapped below `tail`. -/
def ring_pending (ring : Nat) (buf : Nat → Nat) (head tail : Nat) : List Nat :=
  if tail ≤ head then slice buf tail head
  else slice buf tail ring ++ slice buf 0 head

/-- The pending bytes of the TX ring buffer, oldest first. -/
def tx_pending (c : Config) (s : State) : List Nat :=
  ring_pending (TX_RING_BUFFER c) s.serial_tx_buffer s.serial_tx_buffer_head
    s.serial_tx_buffer_tail

/-- Both TX indices are valid slots of `serial_tx_buffer`. -/
def tx_in_range (c : Config) (s : State) : Prop :=
  s.serial_tx_buffer_head < TX_RING_BUFFER c ∧ s.serial_tx_buffer_tail < TX_RING_BUFFER c

instance (c : Config) (s : State) : Decidable (tx_in_range c s) := by
  unfold tx_in_range
  infer_instance

/-- The index-range predicate: all four indices are valid slots of their
buffer. -/
def indices_in_range (c : Config) (s : State) : Prop :=
  rx_in_range c s ∧ tx_in_range c s

instance (c : Config) (s : State) : Decidable (indices_in_range c s) := by
  unfold indices_in_range
  infer_instance

/-- A call into the receive side of `serial.c`: the receive handler with the
UART holding `uart`, `serial_read`, or `serial_reset_read_buffer`. -/
inductive RxCall where
  | isr (uart : List Nat)
  | read
  | reset
  deriving DecidableEq, Repr

/-- The state after a sequence of calls into the receive side. -/
def rx_calls (c : Config) : List RxCall → State → State
  | [], s => s
  | .isr uart :: calls, s => rx_calls c calls (SERIAL_RX_ISR c uart s)
  | .read :: calls, s => rx_calls c calls (serial_read c s).2
  | .reset :: calls, s => rx_calls c calls (serial_reset_read_buffer s)

/-- Successive calls of `serial_write`, one per byte, with no interrupt occurring
and a UART that refuses every character. `none` if one of the calls does not
return. -/
def serial_write_all (c : Config) : List Nat → State → Option State
  | [], s => some s
  | d :: ds, s =>
    match serial_write c d 0 [] s with
    | .returned s1 _ => serial_write_all c ds s1
    | .waiting _ _ => none

/-- The state after the two assignments of `serial_write` (serial.c 138-139) on a
buffer with room: `d` stored at the head slot and the head advanced by one modulo
`TX_RING_BUFFER`. -/
def tx_stored (c : Config) (s : State) (d : Nat) : State :=
  { s with
    serial_tx_buffer := Function.update s.serial_tx_buffer s.serial_tx_buffer_head d,
    serial_tx_buffer_head := (s.serial_tx_buffer_head + 1) % TX_RING_BUFFER c }

/-- No interrupt between two evaluations of the wait-loop condition. -/
def Interrupt.idle : Interrupt := ⟨none, none⟩

/-- A transmit interrupt with a UART that accepts `k` characters. -/
def Interrupt.transmit (k : Nat) : Interrupt := ⟨some k, none⟩

/-! ## Elementary facts about the index arithmetic -/

/-- The 8-bit "increment, then wrap at `r`" used for both ring indices equals
incrementing modulo `r`, as long as the ring has at most 256 slots. -/
theorem next_index_eq (h r : Nat) (hr : r ≤ 256) (hh : h < r) :
    (if (h + 1) % 256 = r then 0 else (h + 1) % 256) = (h + 1) % r := by
  rcases Nat.lt_or_ge (h + 1) r with hlt | hge
  · rw [Nat.mod_eq_of_lt hlt]
    split_ifs <;> omega
  · have he : h + 1 = r := by omega
    rw [he, Nat.mod_self]
    split_ifs <;> omega

/-- A character below `0x80` that is none of the four low-range commands takes
the storing branch of the handler. -/
theorem rx_byte_data (c : Config) (s : State) (b : Nat) (hb : b ≤ 0x7F)
    (h1 : b ≠ c.CMD_RESET) (h2 : b ≠ c.CMD_STATUS_REPORT)
    (h3 : b ≠ c.CMD_CYCLE_START) (h4 : b ≠ c.CMD_FEED_HOLD) :
    rx_byte c s b = rx_store c s b := by
  have h5 : ¬ b > 0x7F := by omega
  simp [rx_byte, h1, h2, h3, h4, h5]

/-- A character above `0x7F` reaches the inner `switch`, the four outer labels
being in the low range. -/
theorem rx_byte_extended (c : Config) (s : State) (b : Nat) (hb : 0x7F < b)
    (hlow : ∀ x ∈ low_commands c, x ≤ 0x7F) :
    rx_byte c s b = rx_extended c s b := by
  simp only [low_commands, List.mem_cons, List.mem_singleton, List.not_mem_nil, or_false,
    forall_eq_or_imp, forall_eq] at hlow
  obtain ⟨h1, h2, h3, h4⟩ := hlow
  have e1 : b ≠ c.CMD_RESET := by omega
  have e2 : b ≠ c.CMD_STATUS_REPORT := by omega
  have e3 : b ≠ c.CMD_CYCLE_START := by omega
  have e4 : b ≠ c.CMD_FEED_HOLD := by omega
  simp [rx_byte, e1, e2, e3, e4, hb]

/-- The three flag-setting cases of the outer `switch`. -/
theorem rx_byte_low_flag (c : Config) (s : State) (e : Nat × FlagSet × Nat)
    (hlow : (low_commands c).Nodup) (he : e ∈ low_flag_commands c) :
    rx_byte c s e.1 = s.set_flags e.2.1 (s.flags e.2.1 ||| e.2.2) := by
  have hlow2 := List.nodup_reverse.mpr hlow
  simp [low_commands] at hlow2
  simp [low_flag_commands] at he
  rcases he with rfl | rfl | rfl <;>
    simp [rx_byte, State.set_flags, State.flags, system_set_exec_state_flag, *]

/-- The unconditional flag-setting cases of the inner `switch`. -/
theorem rx_extended_flag (c : Config) (s : State) (e : Nat × FlagSet × Nat)
    (hext : (extended_commands c).Nodup) (he : e ∈ extended_flag_commands c) :
    rx_extended c s e.1 = s.set_flags e.2.1 (s.flags e.2.1 ||| e.2.2) := by
  have hext2 := List.nodup_reverse.mpr hext
  clear hext
  cases hD : c.DEBUG <;> cases hM : c.ENABLE_M7 <;>
    simp [extended_commands, hD, hM] at hext2 <;>
    simp [extended_flag_commands, hD, hM] at he
  all_goals
    rcases he with rfl | rfl | rfl | rfl | rfl | rfl | rfl | rfl | rfl | rfl | rfl | rfl | rfl
      | rfl | rfl | he
  all_goals
    first
    | (rcases he with rfl | rfl <;>
        simp [rx_extended, hD, hM, State.set_flags, State.flags,
           system_set_exec_accessory_override_flag, *])
    | simp [rx_extended, hD, hM, State.set_flags, State.flags,
         system_set_exec_state_flag, system_set_exec_motion_override_flag,
         system_set_exec_accessory_override_flag, *]

/-- Every flag-setting inner label is a label of the inner `switch`. -/
theorem extended_flag_commands_sub (c : Config) (e : Nat × FlagSet × Nat)
    (he : e ∈ extended_flag_commands c) : e.1 ∈ extended_commands c := by
  cases hD : c.DEBUG <;> cases hM : c.ENABLE_M7 <;>
    simp [extended_flag_commands, hD, hM] at he <;>
    simp [extended_commands, hD, hM]
  all_goals
    rcases he with rfl | rfl | rfl | rfl | rfl | rfl | rfl | rfl | rfl | rfl | rfl | rfl | rfl
      | rfl | rfl | he
  all_goals
    first
    | (rcases he with rfl | rfl <;> simp)
    | simp

/-- Reading back the flag byte that was just replaced. -/
theorem set_flags_flags (s : State) (f : FlagSet) (v : Nat) :
    (s.set_flags f v).flags f = v := by
  cases f <;> rfl

/-- Replacing one flag byte leaves the other two alone. -/
theorem set_flags_flags_ne (s : State) (f : FlagSet) (v : Nat) (g : FlagSet) (h : g ≠ f) :
    (s.set_flags f v).flags g = s.flags g := by
  cases f <;> cases g <;> first | rfl | exact absurd rfl h

/-- Replacing a flag byte leaves the RX ring buffer alone. -/
theorem set_flags_rx (s : State) (f : FlagSet) (v : Nat) : (s.set_flags f v).rx = s.rx := by
  cases f <;> rfl

/-- Replacing a flag byte leaves the TX ring buffer alone. -/
theorem set_flags_tx (s : State) (f : FlagSet) (v : Nat) : (s.set_flags f v).tx = s.tx := by
  cases f <;> rfl

/-! ## The ring buffer and the handler, step by step -/

/-- An empty range of slots holds no byte. -/
theorem slice_self (buf : Nat → Nat) (a : Nat) : slice buf a a = [] := by
  simp [slice]

/-- Extending a range of slots by one slot at the end. -/
theorem slice_snoc (buf : Nat → Nat) (a b : Nat) (h : a ≤ b) :
    slice buf a (b + 1) = slice buf a b ++ [buf b] := by
  have e : b + 1 - a = (b - a) + 1 := by omega
  have e2 : a + (b - a) = b := by omega
  simp [slice, e, List.range'_concat, e2]

/-- Splitting off the first slot of a non-empty range. -/
theorem slice_cons (buf : Nat → Nat) (a b : Nat) (h : a < b) :
    slice buf a b = buf a :: slice buf (a + 1) b := by
  have e : b - a = (b - (a + 1)) + 1 := by omega
  simp only [slice]
  rw [e, List.range'_succ]
  simp

/-- A range of slots `a..b` holds `b - a` bytes. -/
theorem slice_length (buf : Nat → Nat) (a b : Nat) : (slice buf a b).length = b - a := by
  simp [slice]

/-- Writing a slot outside a range does not change the bytes of the range. -/
theorem slice_update (buf : Nat → Nat) (a b i v : Nat) (h : i < a ∨ b ≤ i) :
    slice (Function.update buf i v) a b = slice buf a b := by
  simp only [slice]
  apply List.map_congr_left
  intro x hx
  rw [List.mem_range'_1] at hx
  have : x ≠ i := by omega
  simp [Function.update, this]

/-- The number of pending bytes, from the two indices. -/
theorem rx_pending_length (c : Config) (s : State) :
    (rx_pending c s).length
      = if s.serial_rx_buffer_tail ≤ s.serial_rx_buffer_head then
          s.serial_rx_buffer_head - s.serial_rx_buffer_tail
        else RX_RING_BUFFER c - s.serial_rx_buffer_tail + s.serial_rx_buffer_head := by
  unfold rx_pending
  split_ifs <;> simp [slice_length]

/-- At most `RX_BUFFER_SIZE` bytes are ever pending. -/
theorem rx_pending_le (c : Config) (s : State) (h : rx_in_range c s) :
    (rx_pending c s).length ≤ c.RX_BUFFER_SIZE := by
  rw [rx_pending_length c s]
  obtain ⟨h1, h2⟩ := h
  unfold RX_RING_BUFFER at *
  split_ifs <;> omega

/-- Storing a byte when there is room appends it to the pending bytes and keeps
the indices in range. -/
theorem rx_store_pending (c : Config) (s : State) (b : Nat)
    (hsize : c.RX_BUFFER_SIZE ≤ 255) (h : rx_in_range c s) (hb : b < 256)
    (hroom : (rx_pending c s).length < c.RX_BUFFER_SIZE) :
    rx_in_range c (rx_store c s b) ∧ rx_pending c (rx_store c s b) = rx_pending c s ++ [b] := by
  have hlen := rx_pending_length c s
  obtain ⟨h1, h2⟩ := h
  have hr : RX_RING_BUFFER c ≤ 256 := by unfold RX_RING_BUFFER; omega
  have hn := next_index_eq s.serial_rx_buffer_head (RX_RING_BUFFER c) hr h1
  have hb256 : b % 256 = b := by omega
  have hR : RX_RING_BUFFER c = c.RX_BUFFER_SIZE + 1 := rfl
  simp only [rx_store]
  rw [hn, hb256]
  rcases Nat.lt_or_ge (s.serial_rx_buffer_head + 1) (RX_RING_BUFFER c) with hlt | hge
  · rw [Nat.mod_eq_of_lt hlt]
    have hne : s.serial_rx_buffer_head + 1 ≠ s.serial_rx_buffer_tail := by
      intro he
      rw [if_neg (by omega)] at hlen
      omega
    rw [if_pos hne]
    refine ⟨⟨hlt, h2⟩, ?_⟩
    simp only [rx_pending]
    by_cases hth : s.serial_rx_buffer_tail ≤ s.serial_rx_buffer_head
    · rw [if_pos (by omega), if_pos hth, slice_snoc _ _ _ hth,
        slice_update _ _ _ _ _ (Or.inr (le_refl _))]
      simp
    · rw [if_neg (by omega), if_neg hth, slice_snoc _ _ _ (Nat.zero_le _),
        slice_update _ _ _ _ _ (Or.inl (by omega)),
        slice_update _ _ _ _ _ (Or.inr (le_refl _))]
      simp
  · have he : s.serial_rx_buffer_head + 1 = RX_RING_BUFFER c := by omega
    rw [he, Nat.mod_self]
    have hth : s.serial_rx_buffer_tail ≤ s.serial_rx_buffer_head := by omega
    rw [if_pos hth] at hlen
    have hne : 0 ≠ s.serial_rx_buffer_tail := by omega
    rw [if_pos hne]
    refine ⟨⟨by show 0 < RX_RING_BUFFER c; omega, h2⟩, ?_⟩
    simp only [rx_pending]
    rw [if_neg (by omega), if_pos hth, slice_self, ← he, slice_snoc _ _ _ hth,
      slice_update _ _ _ _ _ (Or.inr (le_refl _))]
    simp

/-- On a non-empty buffer `serial_read` returns the oldest pending byte, removes it
and keeps the indices in range. -/
theorem serial_read_pending (c : Config) (s : State)
    (hsize : c.RX_BUFFER_SIZE ≤ 255) (h : rx_in_range c s)
    (hne : s.serial_rx_buffer_head ≠ s.serial_rx_buffer_tail) :
    rx_in_range c (serial_read c s).2
      ∧ rx_pending c s = (serial_read c s).1 :: rx_pending c (serial_read c s).2 := by
  obtain ⟨h1, h2⟩ := h
  have hr : RX_RING_BUFFER c ≤ 256 := by unfold RX_RING_BUFFER; omega
  have hn := next_index_eq s.serial_rx_buffer_tail (RX_RING_BUFFER c) hr h2
  simp only [serial_read]
  rw [if_neg hne, hn]
  rcases Nat.lt_or_ge (s.serial_rx_buffer_tail + 1) (RX_RING_BUFFER c) with hlt | hge
  · rw [Nat.mod_eq_of_lt hlt]
    refine ⟨⟨h1, hlt⟩, ?_⟩
    simp only [rx_pending]
    by_cases hth : s.serial_rx_buffer_tail ≤ s.serial_rx_buffer_head
    · rw [if_pos hth, if_pos (by omega), slice_cons _ _ _ (by omega)]
    · rw [if_neg hth, if_neg (by omega), slice_cons _ _ _ (by omega)]
      simp
  · have he : s.serial_rx_buffer_tail + 1 = RX_RING_BUFFER c := by omega
    rw [he, Nat.mod_self]
    refine ⟨⟨h1, by show 0 < RX_RING_BUFFER c; omega⟩, ?_⟩
    simp only [rx_pending]
    have hth : ¬ s.serial_rx_buffer_tail ≤ s.serial_rx_buffer_head := by omega
    rw [if_neg hth, if_pos (Nat.zero_le _), slice_cons _ _ _ (by omega), he, slice_self]
    simp

/-- With `head = tail` nothing is pending. -/
theorem rx_pending_nil (c : Config) (s : State)
    (h : s.serial_rx_buffer_head = s.serial_rx_buffer_tail) : rx_pending c s = [] := by
  simp [rx_pending, h, slice_self]

/-- The pending bytes depend on the RX buffer part of the state only. -/
theorem rx_pending_congr (c : Config) (s t : State) (h : s.rx = t.rx) :
    rx_pending c s = rx_pending c t := by
  simp only [State.rx, Prod.mk.injEq] at h
  obtain ⟨h1, h2, h3⟩ := h
  simp [rx_pending, h1, h2, h3]

/-- Validity of the RX indices depends on the RX buffer part of the state only. -/
theorem rx_in_range_congr (c : Config) (s t : State) (h : s.rx = t.rx)
    (hs : rx_in_range c s) : rx_in_range c t := by
  simp only [State.rx, Prod.mk.injEq] at h
  obtain ⟨h1, h2, h3⟩ := h
  simpa [rx_in_range, h2, h3] using hs

/-- The frame predicate passes through an `if`. -/
theorem only_flags_differ_ite (s a b : State) (p : Prop) [Decidable p]
    (ha : only_flags_differ s a) (hb : only_flags_differ s b) :
    only_flags_differ s (if p then a else b) := by
  split <;> assumption

/-- The inner `switch` changes flag bytes only. -/
theorem rx_extended_frame (c : Config) (s : State) (b : Nat) :
    only_flags_differ s (rx_extended c s b) := by
  unfold rx_extended
  repeat' (first | apply only_flags_differ_ite | exact ⟨rfl, rfl, rfl, rfl⟩)

/-- The inner `switch` never touches the RX buffer. -/
theorem rx_extended_rx (c : Config) (s : State) (b : Nat) :
    (rx_extended c s b).rx = s.rx := (rx_extended_frame c s b).1

/-- The inner `switch` never touches the TX buffer. -/
theorem rx_extended_tx (c : Config) (s : State) (b : Nat) :
    (rx_extended c s b).tx = s.tx := (rx_extended_frame c s b).2.1

/-- A character that matches no compiled-in label of the inner `switch` falls
through it. -/
theorem rx_extended_unmatched (c : Config) (s : State) (b : Nat)
    (h : b ∉ extended_commands c) : rx_extended c s b = s := by
  cases hD : c.DEBUG <;> cases hM : c.ENABLE_M7 <;>
    simp [extended_commands, hD, hM] at h <;>
    simp [rx_extended, hD, hM, h]

/-- A character that is not a data byte leaves the RX buffer alone. -/
theorem rx_byte_not_data_rx (c : Config) (s : State) (b : Nat)
    (h : is_data_byte c b = false) : (rx_byte c s b).rx = s.rx := by
  unfold rx_byte
  split_ifs with h1 h2 h3 h4 h5
  · rfl
  · rfl
  · rfl
  · rfl
  · exact rx_extended_rx c s b
  · exfalso
    simp [is_data_byte, low_commands, h1, h2, h3, h4] at h
    omega

/-- The RX buffer after one character depends on the RX buffer before only. -/
theorem rx_byte_rx_congr (c : Config) (s t : State) (b : Nat) (h : s.rx = t.rx) :
    (rx_byte c s b).rx = (rx_byte c t b).rx := by
  by_cases hd : is_data_byte c b = true
  · simp only [is_data_byte, low_commands, Bool.and_eq_true, decide_eq_true_eq, List.mem_cons,
      List.mem_singleton, List.not_mem_nil, or_false, not_or] at hd
    obtain ⟨hb, h1, h2, h3, h4⟩ := hd
    rw [rx_byte_data c s b hb h1 h2 h3 h4, rx_byte_data c t b hb h1 h2 h3 h4]
    simp only [State.rx, Prod.mk.injEq] at h
    obtain ⟨e1, e2, e3⟩ := h
    simp only [rx_store, e1, e2, e3]
    split_ifs <;> simp [State.rx, e1, e2, e3]
  · rw [rx_byte_not_data_rx c s b (by simpa using hd),
      rx_byte_not_data_rx c t b (by simpa using hd), h]

/-- The RX buffer after the handler depends on the RX buffer before only. -/
theorem rx_isr_rx_congr (c : Config) (uart : List Nat) (s t : State) (h : s.rx = t.rx) :
    (SERIAL_RX_ISR c uart s).rx = (SERIAL_RX_ISR c uart t).rx := by
  induction uart generalizing s t with
  | nil => simpa [SERIAL_RX_ISR] using h
  | cons d uart ih =>
    simp only [SERIAL_RX_ISR]
    exact ih _ _ (rx_byte_rx_congr c s t d h)

/-- Processing a stream in two parts. -/
theorem rx_isr_append (c : Config) (u v : List Nat) (s : State) :
    SERIAL_RX_ISR c (u ++ v) s = SERIAL_RX_ISR c v (SERIAL_RX_ISR c u s) := by
  induction u generalizing s with
  | nil => rfl
  | cons d u ih => simp only [List.cons_append, SERIAL_RX_ISR]; exact ih _

/-- Only the reset byte calls `mc_reset`, once. -/
theorem rx_byte_calls (c : Config) (s : State) (b : Nat) :
    (rx_byte c s b).mc_reset_calls
      = s.mc_reset_calls + (if b = c.CMD_RESET then 1 else 0) := by
  unfold rx_byte
  split_ifs with h1 h2 h3 h4 h5
  · rfl
  · rfl
  · rfl
  · rfl
  · simpa using (rx_extended_frame c s b).2.2.2
  · unfold rx_store
    simp only []
    split_ifs <;> rfl

/-- The handler never writes `sys.state`. -/
theorem rx_byte_sys_state (c : Config) (s : State) (b : Nat) :
    (rx_byte c s b).sys_state = s.sys_state := by
  unfold rx_byte
  split_ifs with h1 h2 h3 h4 h5
  · rfl
  · rfl
  · rfl
  · rfl
  · exact (rx_extended_frame c s b).2.2.1
  · unfold rx_store
    simp only []
    split_ifs <;> rfl

/-- The handler never touches the TX buffer. -/
theorem rx_byte_tx (c : Config) (s : State) (b : Nat) :
    (rx_byte c s b).tx = s.tx := by
  unfold rx_byte
  split_ifs with h1 h2 h3 h4 h5
  · rfl
  · rfl
  · rfl
  · rfl
  · exact rx_extended_tx c s b
  · unfold rx_store
    simp only []
    split_ifs <;> rfl

/-- The handler never writes `sys.state`, for a whole stream. -/
theorem rx_isr_sys_state (c : Config) (uart : List Nat) (s : State) :
    (SERIAL_RX_ISR c uart s).sys_state = s.sys_state := by
  induction uart generalizing s with
  | nil => rfl
  | cons d uart ih => simp only [SERIAL_RX_ISR]; rw [ih, rx_byte_sys_state]

/-- The number of `mc_reset` calls after a stream. -/
theorem rx_isr_calls (c : Config) (uart : List Nat) (s : State) :
    (SERIAL_RX_ISR c uart s).mc_reset_calls = s.mc_reset_calls + uart.count c.CMD_RESET := by
  induction uart generalizing s with
  | nil => simp [SERIAL_RX_ISR]
  | cons d uart ih =>
    simp only [SERIAL_RX_ISR]
    rw [ih, rx_byte_calls, List.count_cons]
    by_cases h : d = c.CMD_RESET
    · simp [h]; omega
    · simp [h]

/-- Reset bytes can be removed from a stream without changing the resulting RX
buffer. -/
theorem rx_isr_skip_reset (c : Config) (uart : List Nat) (s : State) :
    (SERIAL_RX_ISR c uart s).rx
      = (SERIAL_RX_ISR c (uart.filter (fun d => decide (d ≠ c.CMD_RESET))) s).rx := by
  induction uart generalizing s with
  | nil => rfl
  | cons d uart ih =>
    by_cases h : d = c.CMD_RESET
    · have e : rx_byte c s d = mc_reset c s := by simp [rx_byte, h]
      rw [List.filter_cons_of_neg (by simp [h])]
      simp only [SERIAL_RX_ISR]
      rw [e, ← ih s]
      exact rx_isr_rx_congr c uart _ _ rfl
    · rw [List.filter_cons_of_pos (by simp [h])]
      simp only [SERIAL_RX_ISR]
      exact ih _

/-- A bit that was ORed in tests as set. -/
theorem or_and_mask (a m : Nat) : (a ||| m) &&& m = m := by
  apply Nat.eq_of_testBit_eq
  intro i
  simp only [Nat.testBit_and, Nat.testBit_or]
  cases Nat.testBit a i <;> cases Nat.testBit m i <;> rfl

/-- Two different single-bit values have no common bit. -/
theorem two_pow_and_two_pow (i j : Nat) (h : i ≠ j) : 2 ^ i &&& 2 ^ j = 0 := by
  apply Nat.eq_of_testBit_eq
  intro k
  simp only [Nat.testBit_and, Nat.testBit_two_pow, Nat.zero_testBit]
  by_cases h1 : i = k <;> by_cases h2 : j = k <;> simp [h1, h2]
  omega

/-- Unfolding of `is_data_byte`. -/
theorem is_data_byte_iff (c : Config) (b : Nat) :
    is_data_byte c b = true ↔ b ≤ 0x7F ∧ b ≠ c.CMD_RESET ∧ b ≠ c.CMD_STATUS_REPORT
      ∧ b ≠ c.CMD_CYCLE_START ∧ b ≠ c.CMD_FEED_HOLD := by
  simp [is_data_byte, low_commands]

/-- In the abstract queue, what was handed out followed by what is still queued is
what was queued at the start followed by what was pushed. -/
theorem queue_run_conserves (ops : List RxOp) (q : List Nat) :
    (queue_run ops q).1 ++ (queue_run ops q).2 = q ++ pushed ops := by
  induction ops generalizing q with
  | nil => simp [queue_run, pushed]
  | cons op ops ih =>
    cases op with
    | push b => simp [queue_run, pushed, ih]
    | read =>
      cases q with
      | nil => simpa [queue_run, pushed] using ih []
      | cons x q => simpa [queue_run, pushed] using ih q

/-- Simulation: from any in-range state, the code and the abstract queue started
on the pending bytes hand out the same bytes and end with the same queue. -/
theorem rx_run_refines (c : Config) (hsize : c.RX_BUFFER_SIZE ≤ 255) (ops : List RxOp) :
    ∀ s : State, rx_in_range c s →
      (∀ b ∈ pushed ops, is_data_byte c b = true) →
      within_capacity c.RX_BUFFER_SIZE ops (rx_pending c s).length = true →
      (rx_run c ops s).1 = (queue_run ops (rx_pending c s)).1
        ∧ rx_pending c (rx_run c ops s).2 = (queue_run ops (rx_pending c s)).2 := by
  induction ops with
  | nil => intro s _ _ _; simp [rx_run, queue_run]
  | cons op ops ih =>
    intro s hr hd hc
    cases op with
    | push b =>
      have hb := (is_data_byte_iff c b).mp (hd b (by simp [pushed]))
      obtain ⟨hb0, h1, h2, h3, h4⟩ := hb
      simp only [within_capacity, Bool.and_eq_true, decide_eq_true_eq] at hc
      obtain ⟨hroom, hc⟩ := hc
      have hst := rx_store_pending c s b hsize hr (by omega) (by omega)
      simp only [rx_run, queue_run, SERIAL_RX_ISR, rx_byte_data c s b hb0 h1 h2 h3 h4]
      rw [← hst.2]
      apply ih _ hst.1 (fun x hx => hd x (by simp [pushed, hx]))
      rw [hst.2]
      simpa using hc
    | read =>
      simp only [within_capacity, Bool.and_eq_true, decide_eq_true_eq] at hc
      obtain ⟨_, hc⟩ := hc
      have hd2 : ∀ b ∈ pushed ops, is_data_byte c b = true := fun x hx => hd x (by simpa [pushed] using hx)
      by_cases he : s.serial_rx_buffer_head = s.serial_rx_buffer_tail
      · have hp := rx_pending_nil c s he
        have hrd : serial_read c s = (c.SERIAL_NO_DATA, s) := by simp [serial_read, he]
        rw [hp] at hc ⊢
        simp only [rx_run, if_pos he, hrd, queue_run]
        have := ih s hr hd2 (by rw [hp]; simpa using hc)
        rwa [hp] at this
      · obtain ⟨hr2, hp⟩ := serial_read_pending c s hsize hr he
        have := ih _ hr2 hd2 (by rw [hp] at hc; simpa using hc)
        simp only [rx_run, if_neg he]
        rw [hp]
        simp only [queue_run, List.cons]
        exact ⟨by rw [this.1], this.2⟩

/-- After a stream, the pending bytes are the earlier ones followed by the data
bytes of the stream, as long as they all fit. -/
theorem rx_isr_pending (c : Config) (hsize : c.RX_BUFFER_SIZE ≤ 255) (uart : List Nat) :
    ∀ s : State, rx_in_range c s →
      (rx_pending c s).length + (uart.filter (is_data_byte c)).length ≤ c.RX_BUFFER_SIZE →
      rx_in_range c (SERIAL_RX_ISR c uart s)
        ∧ rx_pending c (SERIAL_RX_ISR c uart s)
            = rx_pending c s ++ uart.filter (is_data_byte c) := by
  induction uart with
  | nil => intro s hr _; simp [SERIAL_RX_ISR, hr]
  | cons d uart ih =>
    intro s hr hc
    simp only [SERIAL_RX_ISR]
    by_cases hd : is_data_byte c d = true
    · obtain ⟨hb0, h1, h2, h3, h4⟩ := (is_data_byte_iff c d).mp hd
      rw [List.filter_cons_of_pos hd] at hc ⊢
      simp only [List.length_cons] at hc
      have hst := rx_store_pending c s d hsize hr (by omega) (by omega)
      rw [rx_byte_data c s d hb0 h1 h2 h3 h4]
      have := ih _ hst.1 (by rw [hst.2]; simp; omega)
      rw [hst.2] at this
      simpa using this
    · rw [List.filter_cons_of_neg hd] at hc ⊢
      have hrx := rx_byte_not_data_rx c s d (by simpa using hd)
      have hr2 := rx_in_range_congr c _ _ hrx.symm hr
      have hp := rx_pending_congr c _ _ hrx
      have := ih _ hr2 (by rw [hp]; exact hc)
      rwa [hp] at this

/-- Reading until `SERIAL_NO_DATA` returns exactly the pending bytes and leaves
the buffer empty, given enough fuel. -/
theorem serial_read_all_pending (c : Config) (hsize : c.RX_BUFFER_SIZE ≤ 255) (fuel : Nat) :
    ∀ s : State, rx_in_range c s →
      (∀ x ∈ rx_pending c s, x ≠ c.SERIAL_NO_DATA) →
      (rx_pending c s).length < fuel →
      serial_read_all c fuel s
        = some (rx_pending c s, { s with serial_rx_buffer_tail := s.serial_rx_buffer_head }) := by
  induction fuel with
  | zero => intro s _ _ h; omega
  | succ fuel ih =>
    intro s hr hx hf
    by_cases he : s.serial_rx_buffer_head = s.serial_rx_buffer_tail
    · have hrd : serial_read c s = (c.SERIAL_NO_DATA, s) := by simp [serial_read, he]
      simp only [serial_read_all, hrd, if_true, rx_pending_nil c s he]
      cases s
      simp only at he
      subst he
      rfl
    · obtain ⟨hr2, hp⟩ := serial_read_pending c s hsize hr he
      have hne : (serial_read c s).1 ≠ c.SERIAL_NO_DATA := hx _ (by rw [hp]; simp)
      have hrec := ih _ hr2 (fun x hx2 => hx x (by rw [hp]; simp [hx2]))
        (by rw [hp] at hf; simp at hf; omega)
      simp only [serial_read_all, if_neg hne, hrec, Option.map_some']
      rw [hp]
      simp [serial_read, he]

/-- The flag-setting cases of both `switch` statements, for one character. -/
theorem rx_byte_flag_command (c : Config) (s : State) (e : Nat × FlagSet × Nat)
    (hl : c.labels_ok) (he : e ∈ flag_commands c) :
    rx_byte c s e.1 = s.set_flags e.2.1 (s.flags e.2.1 ||| e.2.2) := by
  obtain ⟨hlow, hlowr, hext, hextr⟩ := hl
  rcases List.mem_append.mp he with h | h
  · exact rx_byte_low_flag c s e hlow h
  · rw [rx_byte_extended c s e.1 (hextr _ (extended_flag_commands_sub c e h)) hlowr]
    exact rx_extended_flag c s e hext h

/-- The jog-cancel case of the inner `switch`, for one character. -/
theorem rx_byte_jog_cancel (c : Config) (s : State) (hl : c.labels_ok) :
    rx_byte c s c.CMD_JOG_CANCEL
      = if s.sys_state &&& c.STATE_JOG ≠ 0 then
          system_set_exec_state_flag s c.EXEC_MOTION_CANCEL
        else s := by
  obtain ⟨hlow, hlowr, hext, hextr⟩ := hl
  have hmem : c.CMD_JOG_CANCEL ∈ extended_commands c := by simp [extended_commands]
  have hne : c.CMD_JOG_CANCEL ≠ c.CMD_SAFETY_DOOR := by
    intro h
    simp [extended_commands, h] at hext
  rw [rx_byte_extended c s _ (hextr _ hmem) hlowr]
  simp [rx_extended, hne]

/-- The reset case of the outer `switch`, for one character. -/
theorem rx_byte_reset (c : Config) (s : State) :
    rx_byte c s c.CMD_RESET = mc_reset c s := by
  simp [rx_byte]

/-- The sum of the two RX diagnostics on an in-range state: `RX_BUFFER_SIZE` while
`head` has not wrapped below `tail`, and one less once it has. -/
theorem rx_available_plus_count (c : Config) (s : State)
    (hsize : c.RX_BUFFER_SIZE ≤ 255) (hr : rx_in_range c s) :
    serial_get_rx_buffer_available c s + serial_get_rx_buffer_count c s
      = if s.serial_rx_buffer_tail ≤ s.serial_rx_buffer_head then c.RX_BUFFER_SIZE
        else c.RX_BUFFER_SIZE - 1 := by
  obtain ⟨h1, h2⟩ := hr
  unfold RX_RING_BUFFER at h1 h2
  simp only [serial_get_rx_buffer_available, serial_get_rx_buffer_count, u8, ge_iff_le]
  split_ifs <;> omega

/-! ## The TX buffer, the invariants and the frames, step by step -/

/-- The number of pending bytes of a ring, from the two indices. -/
theorem ring_pending_length (r : Nat) (buf : Nat → Nat) (h t : Nat) :
    (ring_pending r buf h t).length = if t ≤ h then h - t else r - t + h := by
  unfold ring_pending
  split_ifs <;> simp [slice_length]

/-- With `head = tail` nothing is pending. -/
theorem ring_pending_self (r : Nat) (buf : Nat → Nat) (h : Nat) :
    ring_pending r buf h h = [] := by
  simp [ring_pending, slice_self]

/-- Storing at the head of a ring that is not full and advancing the head modulo
the ring size appends the byte to the pending bytes. -/
theorem ring_pending_push (r : Nat) (buf : Nat → Nat) (h t v : Nat)
    (hh : h < r) (ht : t < r) (hroom : (h + 1) % r ≠ t) :
    ring_pending r (Function.update buf h v) ((h + 1) % r) t
      = ring_pending r buf h t ++ [v] := by
  rcases Nat.lt_or_ge (h + 1) r with hlt | hge
  · rw [Nat.mod_eq_of_lt hlt] at hroom ⊢
    simp only [ring_pending]
    by_cases hth : t ≤ h
    · rw [if_pos (by omega), if_pos hth, slice_snoc _ _ _ hth,
        slice_update _ _ _ _ _ (Or.inr (le_refl _))]
      simp
    · rw [if_neg (by omega), if_neg hth, slice_snoc _ _ _ (Nat.zero_le _),
        slice_update _ _ _ _ _ (Or.inl (by omega)),
        slice_update _ _ _ _ _ (Or.inr (le_refl _))]
      simp
  · have he : h + 1 = r := by omega
    rw [he, Nat.mod_self] at hroom ⊢
    have hth : t ≤ h := by omega
    simp only [ring_pending]
    rw [if_neg (by omega), if_pos hth, slice_self, ← he, slice_snoc _ _ _ hth,
      slice_update _ _ _ _ _ (Or.inr (le_refl _))]
    simp

/-- On a non-empty ring the slot at `tail` holds the oldest pending byte, and
advancing the tail modulo the ring size removes it. -/
theorem ring_pending_pop (r : Nat) (buf : Nat → Nat) (h t : Nat)
    (hh : h < r) (ht : t < r) (hne : h ≠ t) :
    ring_pending r buf h t = buf t :: ring_pending r buf h ((t + 1) % r) := by
  rcases Nat.lt_or_ge (t + 1) r with hlt | hge
  · rw [Nat.mod_eq_of_lt hlt]
    simp only [ring_pending]
    by_cases hth : t ≤ h
    · rw [if_pos hth, if_pos (by omega), slice_cons _ _ _ (by omega)]
    · rw [if_neg hth, if_neg (by omega), slice_cons _ _ _ (by omega)]
      simp
  · have he : t + 1 = r := by omega
    rw [he, Nat.mod_self]
    simp only [ring_pending]
    have hth : ¬ t ≤ h := by omega
    rw [if_neg hth, if_pos (Nat.zero_le _), slice_cons _ _ _ (by omega), he, slice_self]
    simp

/-- The number of pending bytes is `(head - tail) mod ring`. -/
theorem ring_pending_length_mod (r : Nat) (buf : Nat → Nat) (h t : Nat)
    (hh : h < r) (ht : t < r) :
    (ring_pending r buf h t).length = (h + r - t) % r := by
  rw [ring_pending_length]
  split_ifs with hth
  · have e : h + r - t = (h - t) + r := by omega
    rw [e, Nat.add_mod_right, Nat.mod_eq_of_lt (by omega)]
  · rw [Nat.mod_eq_of_lt (by omega)]
    omega

/-- A ring is full exactly when `ring - 1` bytes are pending. -/
theorem ring_full_iff (r : Nat) (buf : Nat → Nat) (h t : Nat)
    (hh : h < r) (ht : t < r) :
    (h + 1) % r = t ↔ (ring_pending r buf h t).length = r - 1 := by
  rw [ring_pending_length]
  rcases Nat.lt_or_ge (h + 1) r with hlt | hge
  · rw [Nat.mod_eq_of_lt hlt]
    split_ifs <;> omega
  · have he : h + 1 = r := by omega
    rw [he, Nat.mod_self]
    split_ifs <;> omega

/-- A ring is empty exactly when no byte is pending. -/
theorem ring_empty_iff (r : Nat) (buf : Nat → Nat) (h t : Nat) (ht : t < r) :
    h = t ↔ (ring_pending r buf h t).length = 0 := by
  rw [ring_pending_length]
  split_ifs <;> omega

/-- At most `ring - 1` bytes are pending. -/
theorem ring_pending_le (r : Nat) (buf : Nat → Nat) (h t : Nat)
    (hh : h < r) (ht : t < r) : (ring_pending r buf h t).length ≤ r - 1 := by
  rw [ring_pending_length]
  split_ifs <;> omega

/-- The pending bytes of the RX buffer are those of the ring on its three variables. -/
theorem rx_pending_eq_ring (c : Config) (s : State) :
    rx_pending c s = ring_pending (RX_RING_BUFFER c) s.serial_rx_buffer
      s.serial_rx_buffer_head s.serial_rx_buffer_tail := rfl

/-- The transmit loop changes nothing but the TX tail. -/
theorem tx_drain_frame (c : Config) (k : Nat) :
    ∀ (tail : Nat) (s : State), ∃ t,
      (tx_drain c k tail s).1 = { s with serial_tx_buffer_tail := t } := by
  induction k with
  | zero =>
    intro tail s
    refine ⟨s.serial_tx_buffer_tail, ?_⟩
    simp only [tx_drain]
    split_ifs <;> rfl
  | succ k ih =>
    intro tail s
    simp only [tx_drain]
    split_ifs with h1 h2
    · exact ⟨s.serial_tx_buffer_tail, rfl⟩
    · obtain ⟨t, ht⟩ := ih 0 { s with serial_tx_buffer_tail := 0 }
      exact ⟨t, by rw [ht]⟩
    · obtain ⟨t, ht⟩ := ih ((tail + 1) % 256) { s with serial_tx_buffer_tail := (tail + 1) % 256 }
      exact ⟨t, by rw [ht]⟩

/-- The transmit loop, started at the current tail with a UART that accepts `k`
characters: the tail advances by `min k n` modulo the ring size, the attempts are
the first `k` pending bytes (accepted) followed by one refused attempt if a byte is
left, and the pending bytes lose their first `k`. -/
theorem tx_drain_spec (c : Config) (hsize : c.TX_BUFFER_SIZE ≤ 255) (k : Nat) :
    ∀ s : State, tx_in_range c s →
      (tx_drain c k s.serial_tx_buffer_tail s).1
          = { s with serial_tx_buffer_tail :=
                (s.serial_tx_buffer_tail + min k (tx_pending c s).length) % TX_RING_BUFFER c }
      ∧ (tx_drain c k s.serial_tx_buffer_tail s).2
          = ((tx_pending c s).take k).map (fun b => (b, true))
              ++ (((tx_pending c s).drop k).take 1).map (fun b => (b, false))
      ∧ tx_pending c (tx_drain c k s.serial_tx_buffer_tail s).1 = (tx_pending c s).drop k := by
  have hr : TX_RING_BUFFER c ≤ 256 := by unfold TX_RING_BUFFER; omega
  induction k with
  | zero =>
    intro s hs
    obtain ⟨h1, h2⟩ := hs
    have hself : ({ s with serial_tx_buffer_tail :=
        (s.serial_tx_buffer_tail + min 0 (tx_pending c s).length) % TX_RING_BUFFER c } : State)
        = s := by
      simp [Nat.mod_eq_of_lt h2]
    rw [hself]
    simp only [tx_drain]
    by_cases he : s.serial_tx_buffer_tail = s.serial_tx_buffer_head
    · have hp : tx_pending c s = [] := by
        simp [tx_pending, he, ring_pending_self]
      simp [he, hp]
    · have hp := ring_pending_pop (TX_RING_BUFFER c) s.serial_tx_buffer _ _ h1 h2 (Ne.symm he)
      rw [if_neg he]
      refine ⟨rfl, ?_, rfl⟩
      simp [tx_pending, hp]
  | succ k ih =>
    intro s hs
    obtain ⟨h1, h2⟩ := hs
    simp only [tx_drain]
    by_cases he : s.serial_tx_buffer_tail = s.serial_tx_buffer_head
    · have hp : tx_pending c s = [] := by
        simp [tx_pending, he, ring_pending_self]
      rw [if_pos he, hp]
      refine ⟨?_, by simp, by simp⟩
      simp [Nat.mod_eq_of_lt h2]
    · have hp := ring_pending_pop (TX_RING_BUFFER c) s.serial_tx_buffer _ _ h1 h2 (Ne.symm he)
      have hn := next_index_eq s.serial_tx_buffer_tail (TX_RING_BUFFER c) hr h2
      rw [if_neg he, hn]
      have hlt : (s.serial_tx_buffer_tail + 1) % TX_RING_BUFFER c < TX_RING_BUFFER c :=
        Nat.mod_lt _ (by omega)
      obtain ⟨i1, i2, i3⟩ := ih
        { s with serial_tx_buffer_tail := (s.serial_tx_buffer_tail + 1) % TX_RING_BUFFER c }
        ⟨h1, hlt⟩
      have hp1 : tx_pending c
          { s with serial_tx_buffer_tail := (s.serial_tx_buffer_tail + 1) % TX_RING_BUFFER c }
          = ring_pending (TX_RING_BUFFER c) s.serial_tx_buffer s.serial_tx_buffer_head
              ((s.serial_tx_buffer_tail + 1) % TX_RING_BUFFER c) := rfl
      have hp0 : tx_pending c s = s.serial_tx_buffer s.serial_tx_buffer_tail ::
          ring_pending (TX_RING_BUFFER c) s.serial_tx_buffer s.serial_tx_buffer_head
              ((s.serial_tx_buffer_tail + 1) % TX_RING_BUFFER c) := hp
      simp only [] at i1 i2 i3
      rw [hp1] at i1 i2 i3
      refine ⟨?_, ?_, ?_⟩
      · rw [i1, hp0]
        simp only [List.length_cons, Nat.add_min_add_right, Nat.mod_add_mod]
        have e : s.serial_tx_buffer_tail + 1 + min k (ring_pending (TX_RING_BUFFER c)
            s.serial_tx_buffer s.serial_tx_buffer_head
              ((s.serial_tx_buffer_tail + 1) % TX_RING_BUFFER c)).length
            = s.serial_tx_buffer_tail + (min k (ring_pending (TX_RING_BUFFER c)
            s.serial_tx_buffer s.serial_tx_buffer_head
              ((s.serial_tx_buffer_tail + 1) % TX_RING_BUFFER c)).length + 1) := by omega
        rw [e]
      · rw [i2, hp0]
        simp
      · rw [i3, hp0]
        simp

/-- `serial_get_tx_buffer_count` is the number of pending TX bytes. -/
theorem tx_count_eq (c : Config) (s : State) (hsize : c.TX_BUFFER_SIZE ≤ 255)
    (hr : tx_in_range c s) :
    serial_get_tx_buffer_count c s = (tx_pending c s).length := by
  obtain ⟨h1, h2⟩ := hr
  unfold TX_RING_BUFFER at h1 h2
  simp only [tx_pending, ring_pending_length, serial_get_tx_buffer_count, u8, ge_iff_le,
    TX_RING_BUFFER]
  split_ifs <;> omega

/-- `serial_get_rx_buffer_available` is `RX_BUFFER_SIZE` minus the number of
pending RX bytes. -/
theorem rx_available_eq (c : Config) (s : State) (hsize : c.RX_BUFFER_SIZE ≤ 255)
    (hr : rx_in_range c s) :
    serial_get_rx_buffer_available c s = c.RX_BUFFER_SIZE - (rx_pending c s).length := by
  obtain ⟨h1, h2⟩ := hr
  unfold RX_RING_BUFFER at h1 h2
  simp only [rx_pending_length, serial_get_rx_buffer_available, u8, ge_iff_le,
    RX_RING_BUFFER]
  split_ifs <;> omega

/-- The storing branch on a full buffer changes nothing. -/
theorem rx_store_full (c : Config) (s : State) (b : Nat) (hsize : c.RX_BUFFER_SIZE ≤ 255)
    (hr : rx_in_range c s) (hfull : (rx_pending c s).length = c.RX_BUFFER_SIZE) :
    rx_store c s b = s := by
  obtain ⟨h1, h2⟩ := hr
  have hr256 : RX_RING_BUFFER c ≤ 256 := by unfold RX_RING_BUFFER; omega
  have hn := next_index_eq s.serial_rx_buffer_head (RX_RING_BUFFER c) hr256 h1
  have hf := (ring_full_iff (RX_RING_BUFFER c) s.serial_rx_buffer _ _ h1 h2).mpr
    (by rw [← rx_pending_eq_ring, hfull]; rfl)
  simp only [rx_store]
  rw [hn, hf]
  simp

/-- A stream of data bytes is enqueued up to the free space; the rest is dropped. -/
theorem rx_isr_enqueues (c : Config) (hsize : c.RX_BUFFER_SIZE ≤ 255) (uart : List Nat) :
    ∀ s : State, rx_in_range c s → (∀ b ∈ uart, is_data_byte c b = true) →
      rx_in_range c (SERIAL_RX_ISR c uart s)
      ∧ rx_pending c (SERIAL_RX_ISR c uart s)
        = rx_pending c s ++ uart.take (c.RX_BUFFER_SIZE - (rx_pending c s).length) := by
  induction uart with
  | nil => intro s hr _; simp [SERIAL_RX_ISR, hr]
  | cons d uart ih =>
    intro s hr hd
    obtain ⟨hb0, h1, h2, h3, h4⟩ := (is_data_byte_iff c d).mp (hd d (by simp))
    have hd2 : ∀ b ∈ uart, is_data_byte c b = true := fun b hb => hd b (by simp [hb])
    have hle := rx_pending_le c s hr
    simp only [SERIAL_RX_ISR, rx_byte_data c s d hb0 h1 h2 h3 h4]
    rcases Nat.lt_or_ge (rx_pending c s).length c.RX_BUFFER_SIZE with hlt | hge
    · obtain ⟨hr2, hp⟩ := rx_store_pending c s d hsize hr (by omega) hlt
      obtain ⟨i1, i2⟩ := ih _ hr2 hd2
      refine ⟨i1, ?_⟩
      rw [i2, hp]
      have e : c.RX_BUFFER_SIZE - (rx_pending c s).length
          = (c.RX_BUFFER_SIZE - (rx_pending c s ++ [d]).length) + 1 := by
        simp; omega
      rw [e, List.take_succ_cons]
      simp
    · have hfull : (rx_pending c s).length = c.RX_BUFFER_SIZE := by omega
      rw [rx_store_full c s d hsize hr hfull]
      obtain ⟨i1, i2⟩ := ih _ hr hd2
      refine ⟨i1, ?_⟩
      rw [i2, hfull]
      simp

/-- With room in the buffer `serial_write` goes straight to its last part,
whatever interrupts are scheduled. -/
theorem serial_write_room (c : Config) (s : State) (d k : Nat) (sched : List Interrupt)
    (hsize : c.TX_BUFFER_SIZE ≤ 255) (hhead : s.serial_tx_buffer_head < TX_RING_BUFFER c)
    (hroom : (s.serial_tx_buffer_head + 1) % TX_RING_BUFFER c ≠ s.serial_tx_buffer_tail) :
    serial_write c d k sched s
      = serial_write_store c ((s.serial_tx_buffer_head + 1) % TX_RING_BUFFER c) (d % 256) k s
          [] := by
  have hr : TX_RING_BUFFER c ≤ 256 := by unfold TX_RING_BUFFER; omega
  have hn := next_index_eq s.serial_tx_buffer_head (TX_RING_BUFFER c) hr hhead
  simp only [serial_write]
  rw [hn]
  cases sched <;> simp [serial_write_wait, hroom]

/-- On a full buffer `serial_write` enters its wait loop with `next_head = tail`. -/
theorem serial_write_full (c : Config) (s : State) (d k : Nat) (sched : List Interrupt)
    (hsize : c.TX_BUFFER_SIZE ≤ 255) (hhead : s.serial_tx_buffer_head < TX_RING_BUFFER c)
    (hfull : (s.serial_tx_buffer_head + 1) % TX_RING_BUFFER c = s.serial_tx_buffer_tail) :
    serial_write c d k sched s
      = serial_write_wait c s.serial_tx_buffer_tail (d % 256) k sched s [] := by
  have hr : TX_RING_BUFFER c ≤ 256 := by unfold TX_RING_BUFFER; omega
  have hn := next_index_eq s.serial_tx_buffer_head (TX_RING_BUFFER c) hr hhead
  simp only [serial_write]
  rw [hn, hfull]

/-- `SERIAL_TX_ISR` changes nothing but the TX tail. -/
theorem tx_isr_frame (c : Config) (k : Nat) (s : State) :
    ∃ t, (SERIAL_TX_ISR c k s).1 = { s with serial_tx_buffer_tail := t } :=
  tx_drain_frame c k s.serial_tx_buffer_tail s

/-- `SERIAL_TX_ISR` keeps the TX indices in range. -/
theorem tx_isr_in_range (c : Config) (k : Nat) (s : State) (hsize : c.TX_BUFFER_SIZE ≤ 255)
    (hr : tx_in_range c s) : tx_in_range c (SERIAL_TX_ISR c k s).1 := by
  have h := (tx_drain_spec c hsize k s hr).1
  simp only [SERIAL_TX_ISR]
  rw [h]
  exact ⟨hr.1, Nat.mod_lt _ (by unfold TX_RING_BUFFER; omega)⟩

/-- The storing branch keeps the RX indices in range. -/
theorem rx_store_in_range (c : Config) (s : State) (b : Nat) (hsize : c.RX_BUFFER_SIZE ≤ 255)
    (hr : rx_in_range c s) : rx_in_range c (rx_store c s b) := by
  have hr256 : RX_RING_BUFFER c ≤ 256 := by unfold RX_RING_BUFFER; omega
  have hn := next_index_eq s.serial_rx_buffer_head (RX_RING_BUFFER c) hr256 hr.1
  simp only [rx_store]
  rw [hn]
  split_ifs
  · exact ⟨Nat.mod_lt _ (by unfold RX_RING_BUFFER; omega), hr.2⟩
  · exact hr

/-- The storing branch never writes the RX tail. -/
theorem rx_store_tail (c : Config) (s : State) (b : Nat) :
    (rx_store c s b).serial_rx_buffer_tail = s.serial_rx_buffer_tail := by
  simp only [rx_store]
  split_ifs <;> rfl

/-- One character either takes the storing branch or leaves the RX buffer alone. -/
theorem rx_byte_cases (c : Config) (s : State) (b : Nat) :
    rx_byte c s b = rx_store c s b ∨ (rx_byte c s b).rx = s.rx := by
  by_cases hd : is_data_byte c b = true
  · obtain ⟨hb0, h1, h2, h3, h4⟩ := (is_data_byte_iff c b).mp hd
    exact Or.inl (rx_byte_data c s b hb0 h1 h2 h3 h4)
  · exact Or.inr (rx_byte_not_data_rx c s b (by simpa using hd))

/-- One character keeps the RX indices in range. -/
theorem rx_byte_in_range (c : Config) (s : State) (b : Nat) (hsize : c.RX_BUFFER_SIZE ≤ 255)
    (hr : rx_in_range c s) : rx_in_range c (rx_byte c s b) := by
  rcases rx_byte_cases c s b with h | h
  · rw [h]; exact rx_store_in_range c s b hsize hr
  · exact rx_in_range_congr c _ _ h.symm hr

/-- One character never changes the RX tail. -/
theorem rx_byte_rx_tail (c : Config) (s : State) (b : Nat) :
    (rx_byte c s b).serial_rx_buffer_tail = s.serial_rx_buffer_tail := by
  rcases rx_byte_cases c s b with h | h
  · rw [h]; exact rx_store_tail c s b
  · exact congrArg (fun p => p.2.2) h

/-- The receive handler keeps the RX indices in range. -/
theorem rx_isr_in_range (c : Config) (uart : List Nat) (s : State)
    (hsize : c.RX_BUFFER_SIZE ≤ 255) (hr : rx_in_range c s) :
    rx_in_range c (SERIAL_RX_ISR c uart s) := by
  induction uart generalizing s with
  | nil => exact hr
  | cons d uart ih => exact ih _ (rx_byte_in_range c s d hsize hr)

/-- The receive handler never changes the RX tail. -/
theorem rx_isr_rx_tail (c : Config) (uart : List Nat) (s : State) :
    (SERIAL_RX_ISR c uart s).serial_rx_buffer_tail = s.serial_rx_buffer_tail := by
  induction uart generalizing s with
  | nil => rfl
  | cons d uart ih => simp only [SERIAL_RX_ISR]; rw [ih, rx_byte_rx_tail]

/-- The receive handler never touches the TX buffer. -/
theorem rx_isr_tx (c : Config) (uart : List Nat) (s : State) :
    (SERIAL_RX_ISR c uart s).tx = s.tx := by
  induction uart generalizing s with
  | nil => rfl
  | cons d uart ih => simp only [SERIAL_RX_ISR]; rw [ih, rx_byte_tx]

/-- Validity of the TX indices depends on the TX buffer part of the state only. -/
theorem tx_in_range_congr (c : Config) (s t : State) (h : s.tx = t.tx)
    (hs : tx_in_range c s) : tx_in_range c t := by
  simp only [State.tx, Prod.mk.injEq] at h
  obtain ⟨h1, h2, h3⟩ := h
  simpa [tx_in_range, h2, h3] using hs

/-- `serial_read` changes nothing but the RX tail. -/
theorem serial_read_frame (c : Config) (s : State) :
    ∃ t, (serial_read c s).2 = { s with serial_rx_buffer_tail := t } := by
  simp only [serial_read]
  split_ifs
  · exact ⟨s.serial_rx_buffer_tail, rfl⟩
  · exact ⟨_, rfl⟩
  · exact ⟨_, rfl⟩

/-- `serial_read` keeps the RX indices in range. -/
theorem serial_read_in_range (c : Config) (s : State) (hsize : c.RX_BUFFER_SIZE ≤ 255)
    (hr : rx_in_range c s) : rx_in_range c (serial_read c s).2 := by
  by_cases he : s.serial_rx_buffer_head = s.serial_rx_buffer_tail
  · simpa [serial_read, he] using hr
  · exact (serial_read_pending c s hsize hr he).1

/-- `SERIAL_TX_ISR` never touches the RX buffer. -/
theorem tx_isr_rx (c : Config) (k : Nat) (s : State) : (SERIAL_TX_ISR c k s).1.rx = s.rx := by
  obtain ⟨t, h⟩ := tx_isr_frame c k s
  rw [h]
  rfl

/-- `SERIAL_TX_ISR` keeps the RX indices in range. -/
theorem tx_isr_rx_in_range (c : Config) (k : Nat) (s : State) (hr : rx_in_range c s) :
    rx_in_range c (SERIAL_TX_ISR c k s).1 :=
  rx_in_range_congr c _ _ (tx_isr_rx c k s).symm hr

/-- `SERIAL_TX_ISR` keeps all four indices in range. -/
theorem tx_isr_indices (c : Config) (k : Nat) (s : State) (hsize : c.TX_BUFFER_SIZE ≤ 255)
    (hr : indices_in_range c s) : indices_in_range c (SERIAL_TX_ISR c k s).1 :=
  ⟨tx_isr_rx_in_range c k s hr.1, tx_isr_in_range c k s hsize hr.2⟩

/-- `SERIAL_RX_ISR` keeps all four indices in range. -/
theorem rx_isr_indices (c : Config) (uart : List Nat) (s : State)
    (hsize : c.RX_BUFFER_SIZE ≤ 255) (hr : indices_in_range c s) :
    indices_in_range c (SERIAL_RX_ISR c uart s) :=
  ⟨rx_isr_in_range c uart s hsize hr.1, tx_in_range_congr c _ _ (rx_isr_tx c uart s).symm hr.2⟩

/-- `UART0IntHandler` keeps all four indices in range. -/
theorem uart_handler_indices (c : Config) (i : Interrupt) (s : State)
    (hrx : c.RX_BUFFER_SIZE ≤ 255) (htx : c.TX_BUFFER_SIZE ≤ 255)
    (hr : indices_in_range c s) : indices_in_range c (UART0IntHandler c i s).1 := by
  obtain ⟨tx, rx⟩ := i
  cases tx <;> cases rx <;> simp only [UART0IntHandler]
  · exact hr
  · exact rx_isr_indices c _ _ hrx hr
  · exact tx_isr_indices c _ _ htx hr
  · exact rx_isr_indices c _ _ hrx (tx_isr_indices c _ _ htx hr)

/-- `UART0IntHandler` without a receive interrupt never touches the RX buffer. -/
theorem uart_handler_rx (c : Config) (i : Interrupt) (s : State) (h : i.rx = none) :
    (UART0IntHandler c i s).1.rx = s.rx := by
  obtain ⟨tx, rx⟩ := i
  simp only at h
  subst h
  cases tx <;> simp only [UART0IntHandler]
  exact tx_isr_rx c _ s

/-- The last part of `serial_write` keeps all four indices in range. -/
theorem serial_write_store_indices (c : Config) (nh d k : Nat) (s : State)
    (log : List (Nat × Bool)) (htx : c.TX_BUFFER_SIZE ≤ 255) (hnh : nh < TX_RING_BUFFER c)
    (hr : indices_in_range c s) :
    indices_in_range c (serial_write_store c nh d k s log).state := by
  simp only [serial_write_store, WriteOutcome.state]
  exact tx_isr_indices c k _ htx ⟨hr.1, hnh, hr.2.2⟩

/-- The last part of `serial_write` never touches the RX buffer. -/
theorem serial_write_store_rx (c : Config) (nh d k : Nat) (s : State)
    (log : List (Nat × Bool)) : (serial_write_store c nh d k s log).state.rx = s.rx := by
  simp only [serial_write_store, WriteOutcome.state]
  rw [tx_isr_rx]
  rfl

/-- The wait loop of `serial_write` keeps all four indices in range, whatever
interrupts occur. -/
theorem serial_write_wait_indices (c : Config) (nh d k : Nat) (sched : List Interrupt)
    (hrx : c.RX_BUFFER_SIZE ≤ 255) (htx : c.TX_BUFFER_SIZE ≤ 255)
    (hnh : nh < TX_RING_BUFFER c) :
    ∀ (s : State) (log : List (Nat × Bool)), indices_in_range c s →
      indices_in_range c (serial_write_wait c nh d k sched s log).state := by
  induction sched with
  | nil =>
    intro s log hr
    simp only [serial_write_wait]
    split_ifs
    · exact hr
    · exact hr
    · exact serial_write_store_indices c nh d k s log htx hnh hr
  | cons i sched ih =>
    intro s log hr
    simp only [serial_write_wait]
    split_ifs
    · exact hr
    · exact ih _ _ (uart_handler_indices c i s hrx htx hr)
    · exact serial_write_store_indices c nh d k s log htx hnh hr

/-- The wait loop of `serial_write` never touches the RX buffer when no receive
interrupt occurs. -/
theorem serial_write_wait_rx (c : Config) (nh d k : Nat) (sched : List Interrupt)
    (hs : ∀ i ∈ sched, i.rx = none) :
    ∀ (s : State) (log : List (Nat × Bool)),
      (serial_write_wait c nh d k sched s log).state.rx = s.rx := by
  induction sched with
  | nil =>
    intro s log
    simp only [serial_write_wait]
    split_ifs
    · rfl
    · rfl
    · exact serial_write_store_rx c nh d k s log
  | cons i sched ih =>
    intro s log
    simp only [serial_write_wait]
    split_ifs
    · rfl
    · rw [ih (fun j hj => hs j (by simp [hj])), uart_handler_rx c i s (hs i (by simp))]
    · exact serial_write_store_rx c nh d k s log

/-- `serial_write` keeps all four indices in range, whatever interrupts occur. -/
theorem serial_write_indices (c : Config) (d k : Nat) (sched : List Interrupt) (s : State)
    (hrx : c.RX_BUFFER_SIZE ≤ 255) (htx : c.TX_BUFFER_SIZE ≤ 255)
    (hr : indices_in_range c s) :
    indices_in_range c (serial_write c d k sched s).state := by
  have hr256 : TX_RING_BUFFER c ≤ 256 := by unfold TX_RING_BUFFER; omega
  have hn := next_index_eq s.serial_tx_buffer_head (TX_RING_BUFFER c) hr256 hr.2.1
  simp only [serial_write]
  rw [hn]
  exact serial_write_wait_indices c _ _ k sched hrx htx
    (Nat.mod_lt _ (by unfold TX_RING_BUFFER; omega)) s [] hr

/-- One character keeps every pending byte a data byte. -/
theorem rx_byte_data_inv (c : Config) (s : State) (b : Nat) (hsize : c.RX_BUFFER_SIZE ≤ 255)
    (hr : rx_in_range c s) (hp : ∀ x ∈ rx_pending c s, is_data_byte c x = true) :
    ∀ x ∈ rx_pending c (rx_byte c s b), is_data_byte c x = true := by
  by_cases hd : is_data_byte c b = true
  · obtain ⟨hb0, h1, h2, h3, h4⟩ := (is_data_byte_iff c b).mp hd
    rw [rx_byte_data c s b hb0 h1 h2 h3 h4]
    have hle := rx_pending_le c s hr
    rcases Nat.lt_or_ge (rx_pending c s).length c.RX_BUFFER_SIZE with hlt | hge
    · rw [(rx_store_pending c s b hsize hr (by omega) hlt).2]
      intro x hx
      rcases List.mem_append.mp hx with h | h
      · exact hp x h
      · simp only [List.mem_singleton] at h
        rw [h]; exact hd
    · rw [rx_store_full c s b hsize hr (by omega)]
      exact hp
  · rw [rx_pending_congr c _ _ (rx_byte_not_data_rx c s b (by simpa using hd))]
    exact hp

/-- The receive handler keeps every pending byte a data byte. -/
theorem rx_isr_data_inv (c : Config) (uart : List Nat) (hsize : c.RX_BUFFER_SIZE ≤ 255) :
    ∀ s : State, rx_in_range c s → (∀ x ∈ rx_pending c s, is_data_byte c x = true) →
      ∀ x ∈ rx_pending c (SERIAL_RX_ISR c uart s), is_data_byte c x = true := by
  induction uart with
  | nil => intro s _ hp; exact hp
  | cons d uart ih =>
    intro s hr hp
    exact ih _ (rx_byte_in_range c s d hsize hr) (rx_byte_data_inv c s d hsize hr hp)

/-- `serial_read` keeps every pending byte a data byte. -/
theorem serial_read_data_inv (c : Config) (s : State) (hsize : c.RX_BUFFER_SIZE ≤ 255)
    (hr : rx_in_range c s) (hp : ∀ x ∈ rx_pending c s, is_data_byte c x = true) :
    ∀ x ∈ rx_pending c (serial_read c s).2, is_data_byte c x = true := by
  by_cases he : s.serial_rx_buffer_head = s.serial_rx_buffer_tail
  · simpa [serial_read, he] using hp
  · intro x hx
    apply hp
    rw [(serial_read_pending c s hsize hr he).2]
    exact List.mem_cons_of_mem _ hx

/-- Any sequence of calls into the receive side keeps the RX indices in range and
every pending byte a data byte. -/
theorem rx_calls_data_inv (c : Config) (calls : List RxCall) (hsize : c.RX_BUFFER_SIZE ≤ 255) :
    ∀ s : State, rx_in_range c s → (∀ x ∈ rx_pending c s, is_data_byte c x = true) →
      rx_in_range c (rx_calls c calls s)
        ∧ ∀ x ∈ rx_pending c (rx_calls c calls s), is_data_byte c x = true := by
  induction calls with
  | nil => intro s hr hp; exact ⟨hr, hp⟩
  | cons call calls ih =>
    intro s hr hp
    cases call with
    | isr uart =>
      exact ih _ (rx_isr_in_range c uart s hsize hr) (rx_isr_data_inv c uart hsize s hr hp)
    | read =>
      exact ih _ (serial_read_in_range c s hsize hr) (serial_read_data_inv c s hsize hr hp)
    | reset =>
      refine ih _ ⟨hr.1, hr.1⟩ ?_
      intro x hx
      rw [rx_pending_nil c _ rfl] at hx
      simp at hx

/-- With the UART refusing every character `SERIAL_TX_ISR` changes nothing. -/
theorem tx_isr_refused (c : Config) (s : State) : (SERIAL_TX_ISR c 0 s).1 = s := by
  simp only [SERIAL_TX_ISR, tx_drain]
  split_ifs <;> rfl

/-- The pending TX bytes after the store of `serial_write` on a buffer with room. -/
theorem tx_stored_pending (c : Config) (s : State) (d : Nat) (hr : tx_in_range c s)
    (hroom : (s.serial_tx_buffer_head + 1) % TX_RING_BUFFER c ≠ s.serial_tx_buffer_tail) :
    tx_pending c (tx_stored c s d) = tx_pending c s ++ [d] :=
  ring_pending_push (TX_RING_BUFFER c) s.serial_tx_buffer _ _ d hr.1 hr.2 hroom

/-- The store of `serial_write` keeps the TX indices in range. -/
theorem tx_stored_in_range (c : Config) (s : State) (d : Nat) (hr : tx_in_range c s) :
    tx_in_range c (tx_stored c s d) :=
  ⟨Nat.mod_lt _ (by unfold TX_RING_BUFFER; omega), hr.2⟩

/-- With room in the buffer and a UART that accepts `k` characters, `serial_write`
returns after the store and the drain step. -/
theorem serial_write_returns (c : Config) (s : State) (d k : Nat) (sched : List Interrupt)
    (hsize : c.TX_BUFFER_SIZE ≤ 255) (hr : tx_in_range c s) (hd : d < 256)
    (hroom : (s.serial_tx_buffer_head + 1) % TX_RING_BUFFER c ≠ s.serial_tx_buffer_tail) :
    serial_write c d k sched s
      = .returned (SERIAL_TX_ISR c k (tx_stored c s d)).1
          (SERIAL_TX_ISR c k (tx_stored c s d)).2 := by
  rw [serial_write_room c s d k sched hsize hr.1 hroom, Nat.mod_eq_of_lt hd]
  simp [serial_write_store, tx_stored]

/-- The wait loop with no interrupt: on a full buffer with the reset flag clear
the call is still waiting, the state untouched, however often the condition is
evaluated. -/
theorem serial_write_wait_idle (c : Config) (d k n : Nat) (s : State)
    (log : List (Nat × Bool)) (hreset : s.sys_rt_exec_state &&& c.EXEC_RESET = 0) :
    serial_write_wait c s.serial_tx_buffer_tail d k (List.replicate n Interrupt.idle) s log
      = .waiting s log := by
  induction n with
  | zero => simp [serial_write_wait, hreset]
  | succ n ih =>
    simp only [List.replicate_succ, serial_write_wait, if_true, hreset, ne_eq,
      not_true_eq_false, if_false]
    simpa [UART0IntHandler, Interrupt.idle] using ih

/-- The wait loop, idle for a while and then interrupted by `i`: the handler runs
and the loop condition is evaluated again on the state it leaves. -/
theorem serial_write_wait_idle_then (c : Config) (d k n : Nat) (s : State)
    (i : Interrupt) (sched : List Interrupt)
    (hreset : s.sys_rt_exec_state &&& c.EXEC_RESET = 0) :
    serial_write_wait c s.serial_tx_buffer_tail d k
        (List.replicate n Interrupt.idle ++ i :: sched) s []
      = serial_write_wait c s.serial_tx_buffer_tail d k sched (UART0IntHandler c i s).1
          (UART0IntHandler c i s).2 := by
  induction n with
  | zero => simp [serial_write_wait, hreset]
  | succ n ih =>
    simp only [List.replicate_succ, List.cons_append, serial_write_wait, if_true, hreset,
      ne_eq, not_true_eq_false, if_false]
    simpa [UART0IntHandler, Interrupt.idle] using ih

/-- The wait loop when the condition is false: store and drain, whatever is
scheduled. -/
theorem serial_write_wait_room (c : Config) (nh d k : Nat) (sched : List Interrupt)
    (s : State) (log : List (Nat × Bool)) (h : nh ≠ s.serial_tx_buffer_tail) :
    serial_write_wait c nh d k sched s log = serial_write_store c nh d k s log := by
  cases sched <;> simp [serial_write_wait, h]

/-- Successive writes with the UART refusing every character, while they fit:
each returns, and together they append their bytes to the pending bytes. -/
theorem serial_write_all_fills (c : Config) (hsize : c.TX_BUFFER_SIZE ≤ 255) (ds : List Nat) :
    ∀ s : State, tx_in_range c s → (∀ x ∈ ds, x < 256) →
      (tx_pending c s).length + ds.length ≤ c.TX_BUFFER_SIZE →
      serial_write_all c ds s = some (ds.foldl (tx_stored c) s)
      ∧ tx_in_range c (ds.foldl (tx_stored c) s)
      ∧ tx_pending c (ds.foldl (tx_stored c) s) = tx_pending c s ++ ds
      ∧ (ds.foldl (tx_stored c) s).serial_tx_buffer_tail = s.serial_tx_buffer_tail
      ∧ (ds.foldl (tx_stored c) s).sys_rt_exec_state = s.sys_rt_exec_state := by
  induction ds with
  | nil => intro s hr _ _; simp [serial_write_all, hr]
  | cons d ds ih =>
    intro s hr hd hlen
    simp only [List.length_cons] at hlen
    have hroom : (s.serial_tx_buffer_head + 1) % TX_RING_BUFFER c ≠ s.serial_tx_buffer_tail := by
      intro hf
      have := (ring_full_iff (TX_RING_BUFFER c) s.serial_tx_buffer _ _ hr.1 hr.2).mp hf
      have e : (tx_pending c s).length = TX_RING_BUFFER c - 1 := this
      unfold TX_RING_BUFFER at e
      omega
    have hw := serial_write_returns c s d 0 [] hsize hr (hd d (by simp)) hroom
    have hp := tx_stored_pending c s d hr hroom
    obtain ⟨i1, i2, i3, i4, i5⟩ := ih (tx_stored c s d) (tx_stored_in_range c s d hr)
      (fun x hx => hd x (by simp [hx])) (by rw [hp]; simp; omega)
    simp only [serial_write_all, hw, tx_isr_refused, List.foldl_cons]
    refine ⟨i1, i2, ?_, i4, i5⟩
    rw [i3, hp]
    simp

/-- The storing branch never writes beyond the last slot of the array. -/
theorem rx_store_oob (c : Config) (s : State) (b i : Nat)
    (hh : s.serial_rx_buffer_head < RX_RING_BUFFER c) (hi : RX_RING_BUFFER c ≤ i) :
    (rx_store c s b).serial_rx_buffer i = s.serial_rx_buffer i := by
  have hne : i ≠ s.serial_rx_buffer_head := by omega
  simp only [rx_store]
  split_ifs <;> simp [Function.update, hne]

/-- One character never writes beyond the last slot of the array. -/
theorem rx_byte_oob (c : Config) (s : State) (b i : Nat)
    (hh : s.serial_rx_buffer_head < RX_RING_BUFFER c) (hi : RX_RING_BUFFER c ≤ i) :
    (rx_byte c s b).serial_rx_buffer i = s.serial_rx_buffer i := by
  rcases rx_byte_cases c s b with h | h
  · rw [h]; exact rx_store_oob c s b i hh hi
  · exact congrFun (congrArg (fun p => p.1) h) i

/-- The receive handler never writes beyond the last slot of the array. -/
theorem rx_isr_oob (c : Config) (uart : List Nat) (s : State) (i : Nat)
    (hsize : c.RX_BUFFER_SIZE ≤ 255) (hr : rx_in_range c s) (hi : RX_RING_BUFFER c ≤ i) :
    (SERIAL_RX_ISR c uart s).serial_rx_buffer i = s.serial_rx_buffer i := by
  induction uart generalizing s with
  | nil => rfl
  | cons d uart ih =>
    simp only [SERIAL_RX_ISR]
    rw [ih _ (rx_byte_in_range c s d hsize hr), rx_byte_oob c s d i hr.1 hi]

/-- `UART0IntHandler` changes neither the TX buffer contents nor the TX head. -/
theorem uart_handler_tx (c : Config) (i : Interrupt) (s : State) :
    (UART0IntHandler c i s).1.serial_tx_buffer = s.serial_tx_buffer
      ∧ (UART0IntHandler c i s).1.serial_tx_buffer_head = s.serial_tx_buffer_head := by
  obtain ⟨tx, rx⟩ := i
  cases tx with
  | none =>
    cases rx with
    | none => exact ⟨rfl, rfl⟩
    | some uart =>
      simp only [UART0IntHandler]
      have h := rx_isr_tx c uart s
      exact ⟨congrArg (fun p => p.1) h, congrArg (fun p => p.2.1) h⟩
  | some k =>
    obtain ⟨t, ht⟩ := tx_isr_frame c k s
    cases rx with
    | none =>
      simp only [UART0IntHandler]
      rw [ht]
      exact ⟨rfl, rfl⟩
    | some uart =>
      simp only [UART0IntHandler]
      have h := rx_isr_tx c uart (SERIAL_TX_ISR c k s).1
      have hb : (SERIAL_TX_ISR c k s).1.serial_tx_buffer = s.serial_tx_buffer := by rw [ht]
      have hh : (SERIAL_TX_ISR c k s).1.serial_tx_buffer_head = s.serial_tx_buffer_head := by
        rw [ht]
      exact ⟨(congrArg (fun p => p.1) h).trans hb, (congrArg (fun p => p.2.1) h).trans hh⟩

/-- The last part of `serial_write` never writes beyond the last slot of the
array. -/
theorem serial_write_store_oob (c : Config) (nh d k : Nat) (s : State)
    (log : List (Nat × Bool)) (i : Nat)
    (hh : s.serial_tx_buffer_head < TX_RING_BUFFER c) (hi : TX_RING_BUFFER c ≤ i) :
    (serial_write_store c nh d k s log).state.serial_tx_buffer i = s.serial_tx_buffer i := by
  have hne : i ≠ s.serial_tx_buffer_head := by omega
  simp only [serial_write_store, WriteOutcome.state]
  obtain ⟨t, ht⟩ := tx_isr_frame c k
    { s with
      serial_tx_buffer := Function.update s.serial_tx_buffer s.serial_tx_buffer_head d,
      serial_tx_buffer_head := nh }
  rw [ht]
  simp [Function.update, hne]

/-- The wait loop of `serial_write` never writes beyond the last slot of the
array, whatever interrupts occur. -/
theorem serial_write_wait_oob (c : Config) (nh d k : Nat) (sched : List Interrupt) (i : Nat)
    (hi : TX_RING_BUFFER c ≤ i) :
    ∀ (s : State) (log : List (Nat × Bool)), s.serial_tx_buffer_head < TX_RING_BUFFER c →
      (serial_write_wait c nh d k sched s log).state.serial_tx_buffer i
        = s.serial_tx_buffer i := by
  induction sched with
  | nil =>
    intro s log hh
    simp only [serial_write_wait]
    split_ifs
    · rfl
    · rfl
    · exact serial_write_store_oob c nh d k s log i hh hi
  | cons j sched ih =>
    intro s log hh
    simp only [serial_write_wait]
    split_ifs
    · rfl
    · have h := uart_handler_tx c j s
      rw [ih _ _ (by rw [h.2]; exact hh), h.1]
    · exact serial_write_store_oob c nh d k s log i hh hi

/-- Advancing an index by one modulo a ring of at least two slots moves it. -/
theorem succ_mod_ne (t r : Nat) (ht : t < r) (hr : 2 ≤ r) : (t + 1) % r ≠ t := by
  rcases Nat.lt_or_ge (t + 1) r with hlt | hge
  · rw [Nat.mod_eq_of_lt hlt]; omega
  · have he : t + 1 = r := by omega
    rw [he, Nat.mod_self]; omega

/-! ## Theorems -/

/-- C1: RX FIFO. Starting from an empty RX buffer, for every interleaving of
data-byte pushes (the receive handler taking a byte that is at most `0x7F` and
none of the four low-range real-time bytes) and `serial_read` calls in which the
number of pending bytes never exceeds `RX_BUFFER_SIZE`, the code behaves as the
abstract list queue (push appends, read removes the front): the non-empty
`serial_read` calls return the same bytes as the queue, the pending bytes at the
end are the final queue, and the bytes returned followed by the bytes still
pending are exactly the bytes pushed, in order; so the bytes returned are a
prefix of the bytes pushed. The ring has at most 256 slots (`RX_BUFFER_SIZE ≤ 255`,
the indices being 8-bit) and the start index is a valid slot. -/
theorem rx_fifo_refines_queue (c : Config) (ops : List RxOp) (s : State)
    (hsize : c.RX_BUFFER_SIZE ≤ 255)
    (hhead : s.serial_rx_buffer_head < RX_RING_BUFFER c)
    (hempty : s.serial_rx_buffer_head = s.serial_rx_buffer_tail)
    (hdata : ∀ b ∈ pushed ops, is_data_byte c b = true)
    (hcap : within_capacity c.RX_BUFFER_SIZE ops 0 = true) :
    (rx_run c ops s).1 = (queue_run ops []).1
    ∧ rx_pending c (rx_run c ops s).2 = (queue_run ops []).2
    ∧ (rx_run c ops s).1 ++ rx_pending c (rx_run c ops s).2 = pushed ops := by
  have hp := rx_pending_nil c s hempty
  have hr : rx_in_range c s := ⟨hhead, hempty ▸ hhead⟩
  have h := rx_run_refines c hsize ops s hr hdata (by rw [hp]; exact hcap)
  rw [hp] at h
  refine ⟨h.1, h.2, ?_⟩
  rw [h.1, h.2]
  simpa using queue_run_conserves ops []

/-- Witness for C1: the stock constants, the initial state, and the operations
push `G`, push `1`, read, push `X`, read, read, read (the last read finds the
buffer empty). -/
theorem rx_fifo_refines_queue_witness :
    (rx_run grbl_defaults [.push 0x47, .push 0x31, .read, .push 0x58, .read, .read, .read]
        State.initial).1 = [0x47, 0x31, 0x58]
    ∧ rx_pending grbl_defaults
        (rx_run grbl_defaults [.push 0x47, .push 0x31, .read, .push 0x58, .read, .read, .read]
          State.initial).2 = [] :=
  have h := rx_fifo_refines_queue grbl_defaults
    [.push 0x47, .push 0x31, .read, .push 0x58, .read, .read, .read] State.initial
    (by decide) (by decide) (by decide) (by decide) (by decide)
  ⟨h.1.trans (by decide), h.2.1.trans (by decide)⟩

/-- C2: when the RX buffer is full (`(head+1) mod RX_RING_BUFFER = tail`), the
receive handler processing a data byte (at most `0x7F`, none of the four
low-range real-time bytes) leaves the whole state unchanged, in particular
`serial_rx_buffer`, `serial_rx_buffer_head` and `serial_rx_buffer_tail`: the
byte is dropped and nothing stored is overwritten. The head is a valid slot and
the ring has at most 256 slots (`RX_BUFFER_SIZE ≤ 255`, the indices being 8-bit). -/
theorem rx_isr_full_drops (c : Config) (s : State) (b : Nat)
    (hsize : c.RX_BUFFER_SIZE ≤ 255)
    (hhead : s.serial_rx_buffer_head < RX_RING_BUFFER c)
    (hfull : (s.serial_rx_buffer_head + 1) % RX_RING_BUFFER c = s.serial_rx_buffer_tail)
    (hb : b ≤ 0x7F)
    (h1 : b ≠ c.CMD_RESET) (h2 : b ≠ c.CMD_STATUS_REPORT)
    (h3 : b ≠ c.CMD_CYCLE_START) (h4 : b ≠ c.CMD_FEED_HOLD) :
    SERIAL_RX_ISR c [b] s = s := by
  have hr : RX_RING_BUFFER c ≤ 256 := by unfold RX_RING_BUFFER; omega
  have hn := next_index_eq s.serial_rx_buffer_head (RX_RING_BUFFER c) hr hhead
  simp only [SERIAL_RX_ISR, rx_byte_data c s b hb h1 h2 h3 h4, rx_store]
  rw [hn, hfull]
  simp

/-- Witness for C2: the stock constants, a full buffer with `head = 128`,
`tail = 0`, and the byte `G`. -/
theorem rx_isr_full_drops_witness :
    SERIAL_RX_ISR grbl_defaults [0x47]
        { State.initial with serial_rx_buffer_head := 128 }
      = { State.initial with serial_rx_buffer_head := 128 } :=
  rx_isr_full_drops grbl_defaults { State.initial with serial_rx_buffer_head := 128 } 0x47
    (by decide) (by decide) (by decide) (by decide) (by decide) (by decide) (by decide)
    (by decide)

set_option maxRecDepth 100000 in
/-- C3 (evaluation at a reachable wrapped state): with `RX_BUFFER_SIZE = 128`, let the
receive handler take 128 data bytes from the initial state, let the main program
read one byte, and let the handler take one more data byte. Then `head = 0`,
`tail = 1`, 128 bytes are pending and the buffer is full;
`serial_get_rx_buffer_available` returns `0` but `serial_get_rx_buffer_count`
returns `127`, so the two add up to `127`, not to `RX_RING_BUFFER - 1 = 128`. -/
theorem rx_available_plus_count_wrapped :
    (SERIAL_RX_ISR grbl_defaults [0x47]
      (serial_read grbl_defaults
        (SERIAL_RX_ISR grbl_defaults (List.replicate 128 0x47) State.initial)).2).rx.2
      = (0, 1)
    ∧ (rx_pending grbl_defaults (SERIAL_RX_ISR grbl_defaults [0x47]
      (serial_read grbl_defaults
        (SERIAL_RX_ISR grbl_defaults (List.replicate 128 0x47) State.initial)).2)).length
      = 128
    ∧ serial_get_rx_buffer_available grbl_defaults (SERIAL_RX_ISR grbl_defaults [0x47]
      (serial_read grbl_defaults
        (SERIAL_RX_ISR grbl_defaults (List.replicate 128 0x47) State.initial)).2) = 0
    ∧ serial_get_rx_buffer_count grbl_defaults (SERIAL_RX_ISR grbl_defaults [0x47]
      (serial_read grbl_defaults
        (SERIAL_RX_ISR grbl_defaults (List.replicate 128 0x47) State.initial)).2) = 127
    ∧ RX_RING_BUFFER grbl_defaults - 1 = 128 := by
  decide

/-- C4: for every state, after `serial_reset_read_buffer` the tail equals the
head, `serial_get_rx_buffer_count` returns `0`, the next `serial_read` returns
`SERIAL_NO_DATA` (and changes nothing), and the reset changed neither the head
nor the buffer contents. -/
theorem reset_read_buffer_empties (c : Config) (s : State) :
    (serial_reset_read_buffer s).serial_rx_buffer_tail
        = (serial_reset_read_buffer s).serial_rx_buffer_head
    ∧ serial_get_rx_buffer_count c (serial_reset_read_buffer s) = 0
    ∧ serial_read c (serial_reset_read_buffer s)
        = (c.SERIAL_NO_DATA, serial_reset_read_buffer s)
    ∧ (serial_reset_read_buffer s).serial_rx_buffer_head = s.serial_rx_buffer_head
    ∧ (serial_reset_read_buffer s).serial_rx_buffer = s.serial_rx_buffer := by
  simp [serial_reset_read_buffer, serial_get_rx_buffer_count, serial_read, u8]

/-- C5: for a byte `b ≤ 0x7F` that is none of `CMD_RESET`, `CMD_STATUS_REPORT`,
`CMD_CYCLE_START`, `CMD_FEED_HOLD`, and an RX state that is not full, the
receive handler stores `b` at the old head slot, advances the head by one modulo
`RX_RING_BUFFER`, leaves the tail and every other slot unchanged, and changes no
flag set (nor any other variable). The head is a valid slot and the ring has at
most 256 slots (`RX_BUFFER_SIZE ≤ 255`, the indices being 8-bit). -/
theorem rx_isr_data_byte_stored (c : Config) (s : State) (b : Nat)
    (hsize : c.RX_BUFFER_SIZE ≤ 255)
    (hhead : s.serial_rx_buffer_head < RX_RING_BUFFER c)
    (hroom : (s.serial_rx_buffer_head + 1) % RX_RING_BUFFER c ≠ s.serial_rx_buffer_tail)
    (hb : b ≤ 0x7F)
    (h1 : b ≠ c.CMD_RESET) (h2 : b ≠ c.CMD_STATUS_REPORT)
    (h3 : b ≠ c.CMD_CYCLE_START) (h4 : b ≠ c.CMD_FEED_HOLD) :
    (SERIAL_RX_ISR c [b] s).serial_rx_buffer s.serial_rx_buffer_head = b
    ∧ (SERIAL_RX_ISR c [b] s).serial_rx_buffer_head
        = (s.serial_rx_buffer_head + 1) % RX_RING_BUFFER c
    ∧ (SERIAL_RX_ISR c [b] s).serial_rx_buffer_tail = s.serial_rx_buffer_tail
    ∧ (∀ i, i ≠ s.serial_rx_buffer_head →
        (SERIAL_RX_ISR c [b] s).serial_rx_buffer i = s.serial_rx_buffer i)
    ∧ (SERIAL_RX_ISR c [b] s).sys_rt_exec_state = s.sys_rt_exec_state
    ∧ (SERIAL_RX_ISR c [b] s).sys_rt_exec_motion_override = s.sys_rt_exec_motion_override
    ∧ (SERIAL_RX_ISR c [b] s).sys_rt_exec_accessory_override
        = s.sys_rt_exec_accessory_override
    ∧ (SERIAL_RX_ISR c [b] s).sys_rt_exec_debug = s.sys_rt_exec_debug
    ∧ (SERIAL_RX_ISR c [b] s).sys_state = s.sys_state
    ∧ (SERIAL_RX_ISR c [b] s).mc_reset_calls = s.mc_reset_calls
    ∧ (SERIAL_RX_ISR c [b] s).serial_tx_buffer = s.serial_tx_buffer
    ∧ (SERIAL_RX_ISR c [b] s).serial_tx_buffer_head = s.serial_tx_buffer_head
    ∧ (SERIAL_RX_ISR c [b] s).serial_tx_buffer_tail = s.serial_tx_buffer_tail := by
  have hr : RX_RING_BUFFER c ≤ 256 := by unfold RX_RING_BUFFER; omega
  have hn := next_index_eq s.serial_rx_buffer_head (RX_RING_BUFFER c) hr hhead
  have hb256 : b % 256 = b := by omega
  simp only [SERIAL_RX_ISR, rx_byte_data c s b hb h1 h2 h3 h4, rx_store]
  rw [hn, if_pos hroom, hb256]
  refine ⟨by simp, rfl, rfl, ?_, rfl, rfl, rfl, rfl, rfl, rfl, rfl, rfl, rfl⟩
  intro i hi
  simp [Function.update, hi]

/-- Witness for C5: the stock constants, the initial (empty) state and the
byte `G`. -/
theorem rx_isr_data_byte_stored_witness :
    (SERIAL_RX_ISR grbl_defaults [0x47] State.initial).serial_rx_buffer 0 = 0x47
    ∧ (SERIAL_RX_ISR grbl_defaults [0x47] State.initial).serial_rx_buffer_head = 1
    ∧ (SERIAL_RX_ISR grbl_defaults [0x47] State.initial).serial_rx_buffer_tail = 0 :=
  have h := rx_isr_data_byte_stored grbl_defaults State.initial 0x47
    (by decide) (by decide) (by decide) (by decide) (by decide) (by decide) (by decide)
    (by decide)
  ⟨h.1, h.2.1, h.2.2.1⟩

/-- C6: for every real-time byte whose case is an unconditional flag request
(status-report, cycle-start, feed-hold, safety-door, the feed and rapid override
bytes, the spindle and coolant override bytes), the receive handler processing
that byte ORs the corresponding mask into the corresponding flag byte and leaves
everything else unchanged: the other flag bytes, the RX buffer (head, tail,
contents) and all remaining variables. The case labels are well-formed
(`Config.labels_ok`); the coolant-mist byte counts only under `ENABLE_M7`. -/
theorem rx_isr_flag_command (c : Config) (s : State) (e : Nat × FlagSet × Nat)
    (hl : c.labels_ok) (he : e ∈ flag_commands c) :
    SERIAL_RX_ISR c [e.1] s = s.set_flags e.2.1 (s.flags e.2.1 ||| e.2.2)
    ∧ (SERIAL_RX_ISR c [e.1] s).flags e.2.1 = s.flags e.2.1 ||| e.2.2
    ∧ (∀ f, f ≠ e.2.1 → (SERIAL_RX_ISR c [e.1] s).flags f = s.flags f)
    ∧ (SERIAL_RX_ISR c [e.1] s).rx = s.rx
    ∧ (SERIAL_RX_ISR c [e.1] s).tx = s.tx := by
  have key : SERIAL_RX_ISR c [e.1] s = s.set_flags e.2.1 (s.flags e.2.1 ||| e.2.2) := by
    simp only [SERIAL_RX_ISR]
    exact rx_byte_flag_command c s e hl he
  rw [key]
  refine ⟨rfl, set_flags_flags s _ _, fun f hf => set_flags_flags_ne s _ _ f hf,
    set_flags_rx s _ _, set_flags_tx s _ _⟩

/-- Witness for C6: the stock constants and the feed-hold byte `!`, from the
initial state. -/
theorem rx_isr_flag_command_witness :
    (SERIAL_RX_ISR grbl_defaults [0x21] State.initial).flags .exec_state = 8
    ∧ (SERIAL_RX_ISR grbl_defaults [0x21] State.initial).rx = State.initial.rx :=
  have h := rx_isr_flag_command grbl_defaults State.initial (0x21, .exec_state, 8)
    (by decide) (by decide)
  ⟨h.2.1, h.2.2.2.1⟩

/-- C7: for every state, the receive handler processing the reset byte
`CMD_RESET` leaves the RX buffer (head, tail, contents) unchanged and calls
`mc_reset` exactly once (which requests the reset by setting `EXEC_RESET`); for a
whole stream, the number of `mc_reset` calls is the number of reset bytes in it,
and the resulting RX buffer is the one obtained from the stream with its reset
bytes removed: none of them is enqueued. -/
theorem rx_isr_reset (c : Config) (s : State) :
    (SERIAL_RX_ISR c [c.CMD_RESET] s).rx = s.rx
    ∧ (SERIAL_RX_ISR c [c.CMD_RESET] s).mc_reset_calls = s.mc_reset_calls + 1
    ∧ (SERIAL_RX_ISR c [c.CMD_RESET] s).sys_rt_exec_state
        = s.sys_rt_exec_state ||| c.EXEC_RESET
    ∧ (∀ uart : List Nat,
        (SERIAL_RX_ISR c uart s).mc_reset_calls = s.mc_reset_calls + uart.count c.CMD_RESET
        ∧ (SERIAL_RX_ISR c uart s).rx
            = (SERIAL_RX_ISR c (uart.filter (fun d => decide (d ≠ c.CMD_RESET))) s).rx) := by
  simp only [SERIAL_RX_ISR, rx_byte_reset]
  exact ⟨rfl, rfl, rfl, fun uart => ⟨rx_isr_calls c uart s, rx_isr_skip_reset c uart s⟩⟩

/-- C8: for every byte `b > 0x7F` and every state, the receive handler processing
`b` leaves the RX buffer (head, tail, contents) unchanged: no byte above `0x7F` is
ever stored. If moreover `b` matches no compiled-in entry of the extended command
table (the four low-range commands being at most `0x7F`), the whole state is
unchanged: no buffer mutation and no flag mutation. -/
theorem rx_isr_extended_not_stored (c : Config) (s : State) (b : Nat) (hb : 0x7F < b) :
    (SERIAL_RX_ISR c [b] s).rx = s.rx
    ∧ ((∀ x ∈ low_commands c, x ≤ 0x7F) → b ∉ extended_commands c →
        SERIAL_RX_ISR c [b] s = s) := by
  have hnd : is_data_byte c b = false := by
    simp only [is_data_byte, Bool.and_eq_false_iff, decide_eq_false_iff_not]
    left
    omega
  refine ⟨rx_byte_not_data_rx c s b hnd, fun hlow hun => ?_⟩
  simp only [SERIAL_RX_ISR]
  rw [rx_byte_extended c s b hb hlow]
  exact rx_extended_unmatched c s b hun

/-- Witness for C8: the stock constants, the initial state and the byte `0xFF`. -/
theorem rx_isr_extended_not_stored_witness :
    SERIAL_RX_ISR grbl_defaults [0xFF] State.initial = State.initial :=
  (rx_isr_extended_not_stored grbl_defaults State.initial 0xFF (by decide)).2
    (by decide) (by decide)

/-- C9: the receive handler processing the jog-cancel byte `CMD_JOG_CANCEL`
sets `EXEC_MOTION_CANCEL` in the execution-state flags (and changes nothing else)
when the system state has the jog bit (`sys.state & STATE_JOG` non-zero), and
otherwise leaves the whole state unchanged; in both branches the RX buffer is
unchanged. In particular the flag is set when `sys.state` equals a non-zero
`STATE_JOG`, and nothing changes when `sys.state` is `0` or a single state bit
other than the single bit `STATE_JOG`. The case labels are well-formed
(`Config.labels_ok`). -/
theorem rx_isr_jog_cancel (c : Config) (s : State) (hl : c.labels_ok) :
    (s.sys_state &&& c.STATE_JOG ≠ 0 →
        SERIAL_RX_ISR c [c.CMD_JOG_CANCEL] s
          = s.set_flags .exec_state (s.sys_rt_exec_state ||| c.EXEC_MOTION_CANCEL))
    ∧ (s.sys_state &&& c.STATE_JOG = 0 → SERIAL_RX_ISR c [c.CMD_JOG_CANCEL] s = s)
    ∧ (SERIAL_RX_ISR c [c.CMD_JOG_CANCEL] s).rx = s.rx
    ∧ (s.sys_state = c.STATE_JOG → c.STATE_JOG ≠ 0 →
        SERIAL_RX_ISR c [c.CMD_JOG_CANCEL] s
          = s.set_flags .exec_state (s.sys_rt_exec_state ||| c.EXEC_MOTION_CANCEL))
    ∧ (∀ i j, c.STATE_JOG = 2 ^ j → (s.sys_state = 0 ∨ s.sys_state = 2 ^ i) → i ≠ j →
        SERIAL_RX_ISR c [c.CMD_JOG_CANCEL] s = s) := by
  have key := rx_byte_jog_cancel c s hl
  simp only [SERIAL_RX_ISR]
  refine ⟨fun h => ?_, fun h => ?_, ?_, fun h h0 => ?_, fun i j hj hi hij => ?_⟩
  · rw [key, if_pos h]; rfl
  · rw [key, if_neg (by simpa using h)]
  · rw [key]; split_ifs <;> rfl
  · rw [key, if_pos (by rw [h, Nat.and_self]; exact h0)]; rfl
  · rw [key, if_neg]
    rcases hi with hi | hi
    · simp [hi]
    · simp [hi, hj, two_pow_and_two_pow i j hij]

/-- Witness for C9: the stock constants; the handler in the jog state (`32`) and
in the idle state (`0`). -/
theorem rx_isr_jog_cancel_witness :
    SERIAL_RX_ISR grbl_defaults [0x85] { State.initial with sys_state := 32 }
        = ({ State.initial with sys_state := 32 } : State).set_flags .exec_state (0 ||| 64)
    ∧ SERIAL_RX_ISR grbl_defaults [0x85] State.initial = State.initial :=
  ⟨(rx_isr_jog_cancel grbl_defaults { State.initial with sys_state := 32 } (by decide)).1
      (by decide),
   (rx_isr_jog_cancel grbl_defaults State.initial (by decide)).2.1 (by decide)⟩

/-- C10: end-to-end demultiplexing. For every finite byte sequence fed to the
receive handler from an empty RX buffer, whose number of data bytes is at most
`RX_BUFFER_SIZE`: the bytes then returned by `serial_read` until it answers
`SERIAL_NO_DATA` are exactly the data bytes of the sequence (at most `0x7F`, not
a low-range real-time byte) in arrival order, and the buffer ends empty; and at
every point of the stream, right after a byte `b` has been processed, the pending
bytes are the data bytes received so far and the flag of `b` is set if `b` is a
real-time byte (for jog-cancel: if the system state has the jog bit). The case
labels are well-formed (`Config.labels_ok`), `SERIAL_NO_DATA` is above `0x7F`, and
the ring has at most 256 slots (`RX_BUFFER_SIZE ≤ 255`). -/
theorem rx_isr_demultiplexes (c : Config) (uart : List Nat) (s : State)
    (hsize : c.RX_BUFFER_SIZE ≤ 255) (hl : c.labels_ok) (hnd : 0x7F < c.SERIAL_NO_DATA)
    (hhead : s.serial_rx_buffer_head < RX_RING_BUFFER c)
    (hempty : s.serial_rx_buffer_head = s.serial_rx_buffer_tail)
    (hcap : (uart.filter (is_data_byte c)).length ≤ c.RX_BUFFER_SIZE) :
    (∀ fuel, (uart.filter (is_data_byte c)).length < fuel →
      serial_read_all c fuel (SERIAL_RX_ISR c uart s)
        = some (uart.filter (is_data_byte c),
            { SERIAL_RX_ISR c uart s with
              serial_rx_buffer_tail := (SERIAL_RX_ISR c uart s).serial_rx_buffer_head }))
    ∧ (∀ pre b post, uart = pre ++ b :: post →
        rx_pending c (SERIAL_RX_ISR c (pre ++ [b]) s) = (pre ++ [b]).filter (is_data_byte c)
        ∧ (∀ e ∈ flag_commands c, e.1 = b →
            (SERIAL_RX_ISR c (pre ++ [b]) s).flags e.2.1 &&& e.2.2 = e.2.2)
        ∧ (b = c.CMD_RESET →
            (SERIAL_RX_ISR c (pre ++ [b]) s).sys_rt_exec_state &&& c.EXEC_RESET = c.EXEC_RESET)
        ∧ (b = c.CMD_JOG_CANCEL → s.sys_state &&& c.STATE_JOG ≠ 0 →
            (SERIAL_RX_ISR c (pre ++ [b]) s).sys_rt_exec_state &&& c.EXEC_MOTION_CANCEL
              = c.EXEC_MOTION_CANCEL)) := by
  have hp := rx_pending_nil c s hempty
  have hr : rx_in_range c s := ⟨hhead, hempty ▸ hhead⟩
  constructor
  · intro fuel hf
    obtain ⟨hr2, hp2⟩ := rx_isr_pending c hsize uart s hr (by rw [hp]; simpa using hcap)
    rw [hp, List.nil_append] at hp2
    have := serial_read_all_pending c hsize fuel _ hr2 (by
      intro x hx
      rw [hp2] at hx
      have := (is_data_byte_iff c x).mp (List.mem_filter.mp hx).2
      omega) (by rw [hp2]; exact hf)
    rw [this, hp2]
  · intro pre b post hu
    have hlen : ((pre ++ [b]).filter (is_data_byte c)).length ≤ c.RX_BUFFER_SIZE := by
      have e : uart = (pre ++ [b]) ++ post := by simp [hu]
      rw [e, List.filter_append, List.length_append] at hcap
      omega
    obtain ⟨_, hp2⟩ := rx_isr_pending c hsize (pre ++ [b]) s hr (by rw [hp]; simpa using hlen)
    rw [hp, List.nil_append] at hp2
    have hstep : SERIAL_RX_ISR c (pre ++ [b]) s = rx_byte c (SERIAL_RX_ISR c pre s) b := by
      rw [rx_isr_append]; rfl
    refine ⟨hp2, ?_, ?_, ?_⟩
    · intro e he heb
      rw [hstep, ← heb, rx_byte_flag_command c _ e hl he, set_flags_flags]
      exact or_and_mask _ _
    · intro hb
      rw [hstep, hb, rx_byte_reset]
      exact or_and_mask _ _
    · intro hb hjog
      rw [hstep, hb, rx_byte_jog_cancel c _ hl, rx_isr_sys_state, if_pos hjog]
      exact or_and_mask _ _

/-- Witness for C10: the stock constants and the stream `G 1 ! X 1` from the
initial state: reading returns `G 1 X 1`; after the prefix `G 1 !` the buffer
holds `G 1` and `EXEC_FEED_HOLD` is set, while it was clear after `G 1`. -/
theorem rx_isr_demultiplexes_witness :
    (serial_read_all grbl_defaults 5
        (SERIAL_RX_ISR grbl_defaults [0x47, 0x31, 0x21, 0x58, 0x31] State.initial)).map Prod.fst
      = some [0x47, 0x31, 0x58, 0x31]
    ∧ rx_pending grbl_defaults (SERIAL_RX_ISR grbl_defaults [0x47, 0x31, 0x21] State.initial)
        = [0x47, 0x31]
    ∧ (SERIAL_RX_ISR grbl_defaults [0x47, 0x31, 0x21] State.initial).sys_rt_exec_state &&& 8 = 8
    ∧ (SERIAL_RX_ISR grbl_defaults [0x47, 0x31] State.initial).sys_rt_exec_state &&& 8 = 0 :=
  have h := rx_isr_demultiplexes grbl_defaults [0x47, 0x31, 0x21, 0x58, 0x31] State.initial
    (by decide) (by decide) (by decide) (by decide) (by decide) (by decide)
  ⟨congrArg (Option.map Prod.fst) (h.1 5 (by decide)),
   (h.2 [0x47, 0x31] 0x21 [0x58, 0x31] rfl).1,
   (h.2 [0x47, 0x31] 0x21 [0x58, 0x31] rfl).2.1 (0x21, .exec_state, 8) (by decide) rfl,
   by decide⟩

/-- C11: `serial_read` contract. If `head = tail` it returns `SERIAL_NO_DATA` and
leaves the state (head, tail, contents) unchanged; otherwise it returns the byte
stored at index `tail`, sets the tail to `(tail + 1) mod RX_RING_BUFFER` and
changes nothing else (head and contents in particular). The second part is for a
tail that is a valid slot of a ring of at most 256 slots (`RX_BUFFER_SIZE ≤ 255`,
the indices being 8-bit). -/
theorem serial_read_contract (c : Config) (s : State) :
    (s.serial_rx_buffer_head = s.serial_rx_buffer_tail →
      serial_read c s = (c.SERIAL_NO_DATA, s))
    ∧ (s.serial_rx_buffer_head ≠ s.serial_rx_buffer_tail → c.RX_BUFFER_SIZE ≤ 255 →
        s.serial_rx_buffer_tail < RX_RING_BUFFER c →
        serial_read c s
          = (s.serial_rx_buffer s.serial_rx_buffer_tail,
             { s with serial_rx_buffer_tail :=
                 (s.serial_rx_buffer_tail + 1) % RX_RING_BUFFER c })) := by
  constructor
  · intro he
    simp [serial_read, he]
  · intro hne hsize ht
    have hr : RX_RING_BUFFER c ≤ 256 := by unfold RX_RING_BUFFER; omega
    have hn := next_index_eq s.serial_rx_buffer_tail (RX_RING_BUFFER c) hr ht
    simp only [serial_read]
    rw [if_neg hne, hn]

/-- Witness for C11: the stock constants; a read of the initial (empty) state, and
a read after the handler has received `G`. -/
theorem serial_read_contract_witness :
    serial_read grbl_defaults State.initial = (0xff, State.initial)
    ∧ (serial_read grbl_defaults (SERIAL_RX_ISR grbl_defaults [0x47] State.initial)).1 = 0x47
    ∧ (serial_read grbl_defaults
        (SERIAL_RX_ISR grbl_defaults [0x47] State.initial)).2.serial_rx_buffer_tail = 1 :=
  ⟨(serial_read_contract grbl_defaults State.initial).1 (by decide),
   (congrArg Prod.fst ((serial_read_contract grbl_defaults
      (SERIAL_RX_ISR grbl_defaults [0x47] State.initial)).2
        (by decide) (by decide) (by decide))).trans (by decide),
   (congrArg (fun p => p.2.serial_rx_buffer_tail) ((serial_read_contract grbl_defaults
      (SERIAL_RX_ISR grbl_defaults [0x47] State.initial)).2
        (by decide) (by decide) (by decide))).trans (by decide)⟩

/-- C12: `serial_write` success path. For a TX state that is not full
(`(head+1) mod TX_RING_BUFFER ≠ tail`) and a byte `d`, whatever the reset flag
and whatever interrupts are scheduled, `serial_write d` returns after storing `d`
at the old head slot, advancing the head to `(head + 1) mod TX_RING_BUFFER` and
then running the drain step on that state; if the UART refuses every character
(`k = 0`) the result is exactly the state after the store, with one refused send
attempt, the tail unchanged and `serial_get_tx_buffer_count` larger by one. The
indices are valid slots of a ring of at most 256 slots. -/
theorem serial_write_stores (c : Config) (s : State) (d k : Nat) (sched : List Interrupt)
    (hsize : c.TX_BUFFER_SIZE ≤ 255) (hr : tx_in_range c s) (hd : d < 256)
    (hroom : (s.serial_tx_buffer_head + 1) % TX_RING_BUFFER c ≠ s.serial_tx_buffer_tail) :
    serial_write c d k sched s
        = .returned (SERIAL_TX_ISR c k (tx_stored c s d)).1
            (SERIAL_TX_ISR c k (tx_stored c s d)).2
    ∧ (tx_stored c s d).serial_tx_buffer s.serial_tx_buffer_head = d
    ∧ (tx_stored c s d).serial_tx_buffer_head
        = (s.serial_tx_buffer_head + 1) % TX_RING_BUFFER c
    ∧ serial_write c d 0 sched s
        = .returned (tx_stored c s d)
            [((tx_stored c s d).serial_tx_buffer s.serial_tx_buffer_tail, false)]
    ∧ (tx_stored c s d).serial_tx_buffer_tail = s.serial_tx_buffer_tail
    ∧ serial_get_tx_buffer_count c (tx_stored c s d) = serial_get_tx_buffer_count c s + 1 := by
  have hw := serial_write_returns c s d k sched hsize hr hd hroom
  have hw0 := serial_write_returns c s d 0 sched hsize hr hd hroom
  have hp := tx_stored_pending c s d hr hroom
  refine ⟨hw, by simp [tx_stored], rfl, ?_, rfl, ?_⟩
  · rw [hw0, tx_isr_refused]
    have hne : s.serial_tx_buffer_tail ≠ (tx_stored c s d).serial_tx_buffer_head :=
      fun h => hroom h.symm
    have : (tx_stored c s d).serial_tx_buffer_tail = s.serial_tx_buffer_tail := rfl
    simp only [SERIAL_TX_ISR, tx_drain, this, if_neg hne]
  · rw [tx_count_eq c _ hsize (tx_stored_in_range c s d hr), tx_count_eq c s hsize hr, hp]
    simp

/-- Witness for C12: the stock constants; writing `o` to the initial state with
the UART refusing every character. -/
theorem serial_write_stores_witness :
    serial_write grbl_defaults 0x6f 0 [] State.initial
      = .returned (tx_stored grbl_defaults State.initial 0x6f) [(0x6f, false)]
    ∧ serial_get_tx_buffer_count grbl_defaults (tx_stored grbl_defaults State.initial 0x6f)
        = 1 :=
  have h := serial_write_stores grbl_defaults State.initial 0x6f 0 []
    (by decide) (by decide) (by decide) (by decide)
  ⟨h.2.2.2.1, h.2.2.2.2.2.trans (by decide)⟩

/-- C13: `serial_write` cancellation. When the TX buffer is full
(`(head+1) mod TX_RING_BUFFER = tail`) and the `EXEC_RESET` bit is set in
`sys_rt_exec_state`, `serial_write d` returns with the whole state unchanged (TX
head, tail and contents in particular) and an empty log of send attempts: the
byte is dropped, the drain step is not run, nothing is handed to the UART. The
head is a valid slot of a ring of at most 256 slots. -/
theorem serial_write_cancelled (c : Config) (s : State) (d k : Nat) (sched : List Interrupt)
    (hsize : c.TX_BUFFER_SIZE ≤ 255) (hhead : s.serial_tx_buffer_head < TX_RING_BUFFER c)
    (hfull : (s.serial_tx_buffer_head + 1) % TX_RING_BUFFER c = s.serial_tx_buffer_tail)
    (hreset : s.sys_rt_exec_state &&& c.EXEC_RESET ≠ 0) :
    serial_write c d k sched s = .returned s [] := by
  rw [serial_write_full c s d k sched hsize hhead hfull]
  cases sched <;> simp [serial_write_wait, hreset]

/-- Witness for C13: the stock constants; a full buffer (`head = 104`, `tail = 0`)
with `EXEC_RESET` (16) set. -/
theorem serial_write_cancelled_witness :
    serial_write grbl_defaults 0x6f 5 [Interrupt.idle]
        { State.initial with serial_tx_buffer_head := 104, sys_rt_exec_state := 16 }
      = .returned { State.initial with serial_tx_buffer_head := 104, sys_rt_exec_state := 16 }
          [] :=
  serial_write_cancelled grbl_defaults
    { State.initial with serial_tx_buffer_head := 104, sys_rt_exec_state := 16 } 0x6f 5
    [Interrupt.idle] (by decide) (by decide) (by decide) (by decide)

/-- C14: TX drain step. For a TX state with pending bytes `p_1..p_n` (from tail
to head) and a UART that accepts exactly the first `k` send attempts,
`SERIAL_TX_ISR` changes nothing but the tail, which advances by `min k n` modulo
`TX_RING_BUFFER`; its send attempts are `p_1..p_min(k,n)` in that order, all
accepted, followed by one refused attempt on `p_(k+1)` if `k < n`, and by nothing
once `tail = head`; the pending bytes lose their first `k`. In particular, if the
first send is refused the state is unchanged, and if the UART accepts everything
(`n ≤ k`) the buffer ends empty with exactly `n` attempts. The indices are valid
slots of a ring of at most 256 slots. -/
theorem tx_isr_drains (c : Config) (s : State) (k : Nat)
    (hsize : c.TX_BUFFER_SIZE ≤ 255) (hr : tx_in_range c s) :
    (SERIAL_TX_ISR c k s).1
        = { s with serial_tx_buffer_tail :=
              (s.serial_tx_buffer_tail + min k (tx_pending c s).length) % TX_RING_BUFFER c }
    ∧ (SERIAL_TX_ISR c k s).2
        = ((tx_pending c s).take k).map (fun b => (b, true))
            ++ (((tx_pending c s).drop k).take 1).map (fun b => (b, false))
    ∧ tx_pending c (SERIAL_TX_ISR c k s).1 = (tx_pending c s).drop k
    ∧ (k = 0 → (SERIAL_TX_ISR c k s).1 = s)
    ∧ ((tx_pending c s).length ≤ k →
        (SERIAL_TX_ISR c k s).1.serial_tx_buffer_tail
            = (SERIAL_TX_ISR c k s).1.serial_tx_buffer_head
        ∧ (SERIAL_TX_ISR c k s).2 = (tx_pending c s).map (fun b => (b, true))) := by
  obtain ⟨h1, h2, h3⟩ := tx_drain_spec c hsize k s hr
  refine ⟨h1, h2, h3, ?_, ?_⟩
  · intro hk
    rw [hk]
    exact tx_isr_refused c s
  · intro hk
    have hr2 := tx_isr_in_range c k s hsize hr
    have hlen : (tx_pending c (SERIAL_TX_ISR c k s).1).length = 0 := by
      have : tx_pending c (SERIAL_TX_ISR c k s).1 = (tx_pending c s).drop k := h3
      rw [this]
      simp [hk]
    constructor
    · exact ((ring_empty_iff (TX_RING_BUFFER c) _ _ _ hr2.2).mpr hlen).symm
    · have : (SERIAL_TX_ISR c k s).2 = _ := h2
      rw [this, List.take_of_length_le hk, List.drop_of_length_le hk]
      simp

/-- Witness for C14: the stock constants; `o k` pending and a UART that accepts
one character. -/
theorem tx_isr_drains_witness :
    (SERIAL_TX_ISR grbl_defaults 1
        (tx_stored grbl_defaults (tx_stored grbl_defaults State.initial 0x6f) 0x6b)).2
      = [(0x6f, true), (0x6b, false)]
    ∧ tx_pending grbl_defaults (SERIAL_TX_ISR grbl_defaults 1
        (tx_stored grbl_defaults (tx_stored grbl_defaults State.initial 0x6f) 0x6b)).1
      = [0x6b] :=
  have h := tx_isr_drains grbl_defaults
    (tx_stored grbl_defaults (tx_stored grbl_defaults State.initial 0x6f) 0x6b) 1
    (by decide) (by decide)
  ⟨h.2.1.trans (by decide), h.2.2.1.trans (by decide)⟩

/-- C15: index-range invariant. The predicate "RX head, RX tail below
`RX_RING_BUFFER` and TX head, TX tail below `TX_RING_BUFFER`" holds in the initial
state and is preserved by `SERIAL_RX_ISR` on any stream, `serial_read`,
`serial_reset_read_buffer`, `serial_write` (in whatever state the call is left,
whatever interrupts occur) and `SERIAL_TX_ISR`; and from a state satisfying it,
neither `SERIAL_RX_ISR` nor `serial_write` changes a slot beyond the end of its
array. Both rings have at most 256 slots (the indices being 8-bit). -/
theorem indices_in_range_invariant (c : Config)
    (hrx : c.RX_BUFFER_SIZE ≤ 255) (htx : c.TX_BUFFER_SIZE ≤ 255) :
    indices_in_range c State.initial
    ∧ (∀ s : State, indices_in_range c s →
        (∀ uart, indices_in_range c (SERIAL_RX_ISR c uart s))
        ∧ indices_in_range c (serial_read c s).2
        ∧ indices_in_range c (serial_reset_read_buffer s)
        ∧ (∀ d k sched, indices_in_range c (serial_write c d k sched s).state)
        ∧ (∀ k, indices_in_range c (SERIAL_TX_ISR c k s).1)
        ∧ (∀ uart i, RX_RING_BUFFER c ≤ i →
            (SERIAL_RX_ISR c uart s).serial_rx_buffer i = s.serial_rx_buffer i)
        ∧ (∀ d k sched i, TX_RING_BUFFER c ≤ i →
            (serial_write c d k sched s).state.serial_tx_buffer i = s.serial_tx_buffer i)) := by
  refine ⟨?_, fun s hs => ⟨fun uart => rx_isr_indices c uart s hrx hs, ?_, ?_,
    fun d k sched => serial_write_indices c d k sched s hrx htx hs,
    fun k => tx_isr_indices c k s htx hs,
    fun uart i hi => rx_isr_oob c uart s i hrx hs.1 hi, ?_⟩⟩
  · simp [indices_in_range, rx_in_range, tx_in_range, State.initial, RX_RING_BUFFER,
      TX_RING_BUFFER]
  · obtain ⟨t, ht⟩ := serial_read_frame c s
    refine ⟨serial_read_in_range c s hrx hs.1, ?_⟩
    rw [ht]
    exact hs.2
  · exact ⟨⟨hs.1.1, hs.1.1⟩, hs.2⟩
  · intro d k sched i hi
    simp only [serial_write]
    exact serial_write_wait_oob c _ _ k sched i hi s [] hs.2.1

/-- Witness for C15: the stock constants; the initial state, and the state after
the handler has received `G` and the main program has written `o`. -/
theorem indices_in_range_invariant_witness :
    indices_in_range grbl_defaults State.initial
    ∧ indices_in_range grbl_defaults
        (serial_write grbl_defaults 0x6f 1 [] (SERIAL_RX_ISR grbl_defaults [0x47]
          State.initial)).state :=
  have h := indices_in_range_invariant grbl_defaults (by decide) (by decide)
  ⟨h.1, ((h.2 _ ((h.2 State.initial h.1).1 [0x47])).2.2.2.1) 0x6f 1 []⟩

/-- C16: `serial_get_rx_buffer_available` returns the true free space. For an RX
state with head and tail in range, its result is `RX_BUFFER_SIZE` minus the number
of pending bytes `(head - tail) mod RX_RING_BUFFER`; of any stream of data bytes
the receive handler enqueues exactly that many and drops the rest; the result is
`RX_BUFFER_SIZE` iff the buffer is empty and `0` iff it is full. The ring has at
most 256 slots. -/
theorem rx_available_is_free_space (c : Config) (s : State)
    (hsize : c.RX_BUFFER_SIZE ≤ 255) (hr : rx_in_range c s) :
    serial_get_rx_buffer_available c s
        = c.RX_BUFFER_SIZE
            - (s.serial_rx_buffer_head + RX_RING_BUFFER c - s.serial_rx_buffer_tail)
                % RX_RING_BUFFER c
    ∧ (rx_pending c s).length
        = (s.serial_rx_buffer_head + RX_RING_BUFFER c - s.serial_rx_buffer_tail)
            % RX_RING_BUFFER c
    ∧ (∀ uart : List Nat, (∀ b ∈ uart, is_data_byte c b = true) →
        rx_pending c (SERIAL_RX_ISR c uart s)
          = rx_pending c s ++ uart.take (serial_get_rx_buffer_available c s))
    ∧ (serial_get_rx_buffer_available c s = c.RX_BUFFER_SIZE
        ↔ s.serial_rx_buffer_head = s.serial_rx_buffer_tail)
    ∧ (serial_get_rx_buffer_available c s = 0
        ↔ (s.serial_rx_buffer_head + 1) % RX_RING_BUFFER c = s.serial_rx_buffer_tail) := by
  have ha := rx_available_eq c s hsize hr
  have hm := ring_pending_length_mod (RX_RING_BUFFER c) s.serial_rx_buffer _ _ hr.1 hr.2
  rw [← rx_pending_eq_ring] at hm
  have hle := rx_pending_le c s hr
  have he := ring_empty_iff (RX_RING_BUFFER c) s.serial_rx_buffer s.serial_rx_buffer_head _ hr.2
  have hf := ring_full_iff (RX_RING_BUFFER c) s.serial_rx_buffer _ _ hr.1 hr.2
  rw [← rx_pending_eq_ring] at he hf
  have hR : RX_RING_BUFFER c - 1 = c.RX_BUFFER_SIZE := rfl
  refine ⟨by rw [ha, hm], hm, ?_, ?_, ?_⟩
  · intro uart hd
    rw [ha]
    exact (rx_isr_enqueues c hsize uart s hr hd).2
  · rw [ha, he]
    omega
  · rw [ha, hf, hR]
    omega

/-- Witness for C16: the stock constants; a wrapped state with `head = 2` and
`tail = 5`, where 126 bytes are pending and 2 slots are free. -/
theorem rx_available_is_free_space_witness :
    serial_get_rx_buffer_available grbl_defaults
        { State.initial with serial_rx_buffer_head := 2, serial_rx_buffer_tail := 5 } = 2
    ∧ (rx_pending grbl_defaults
        { State.initial with serial_rx_buffer_head := 2, serial_rx_buffer_tail := 5 }).length
      = 126 :=
  have h := rx_available_is_free_space grbl_defaults
    { State.initial with serial_rx_buffer_head := 2, serial_rx_buffer_tail := 5 }
    (by decide) (by decide)
  ⟨h.1.trans (by decide), h.2.1.trans (by decide)⟩

/-- C17: `serial_get_tx_buffer_count` returns the number of bytes used in the TX
buffer. For a TX state with head and tail in range (wrapped or not) its result is
`(head - tail) mod TX_RING_BUFFER`, the number of pending bytes; the store of
`serial_write` raises it by one and `SERIAL_TX_ISR` lowers it by the number of
bytes the UART accepted. The ring has at most 256 slots. -/
theorem tx_count_is_used (c : Config) (s : State)
    (hsize : c.TX_BUFFER_SIZE ≤ 255) (hr : tx_in_range c s) :
    serial_get_tx_buffer_count c s
        = (s.serial_tx_buffer_head + TX_RING_BUFFER c - s.serial_tx_buffer_tail)
            % TX_RING_BUFFER c
    ∧ serial_get_tx_buffer_count c s = (tx_pending c s).length
    ∧ (∀ d, (s.serial_tx_buffer_head + 1) % TX_RING_BUFFER c ≠ s.serial_tx_buffer_tail →
        serial_get_tx_buffer_count c (tx_stored c s d) = serial_get_tx_buffer_count c s + 1)
    ∧ (∀ k, serial_get_tx_buffer_count c (SERIAL_TX_ISR c k s).1
        = serial_get_tx_buffer_count c s - min k (serial_get_tx_buffer_count c s)) := by
  have hc := tx_count_eq c s hsize hr
  have hm := ring_pending_length_mod (TX_RING_BUFFER c) s.serial_tx_buffer _ _ hr.1 hr.2
  refine ⟨hc.trans hm, hc, ?_, ?_⟩
  · intro d hroom
    rw [tx_count_eq c _ hsize (tx_stored_in_range c s d hr), hc,
      tx_stored_pending c s d hr hroom]
    simp
  · intro k
    have h3 : tx_pending c (SERIAL_TX_ISR c k s).1 = (tx_pending c s).drop k :=
      (tx_drain_spec c hsize k s hr).2.2
    rw [tx_count_eq c _ hsize (tx_isr_in_range c k s hsize hr), hc, h3]
    simp
    omega

/-- Witness for C17: the stock constants; a wrapped state with `head = 2` and
`tail = 5`, where 102 bytes are in use. -/
theorem tx_count_is_used_witness :
    serial_get_tx_buffer_count grbl_defaults
        { State.initial with serial_tx_buffer_head := 2, serial_tx_buffer_tail := 5 } = 102 :=
  (tx_count_is_used grbl_defaults
    { State.initial with serial_tx_buffer_head := 2, serial_tx_buffer_tail := 5 }
    (by decide) (by decide)).1.trans (by decide)

/-- C18: single-writer frame property. `SERIAL_RX_ISR` (on any stream) never
changes the RX tail; `serial_read` and `serial_reset_read_buffer` never change the
RX head or the RX buffer contents; `SERIAL_TX_ISR` never changes the TX head or
the TX buffer contents; none of the three receive-side operations changes the TX
buffer, head or tail, and neither `SERIAL_TX_ISR` nor `serial_write` (when no
receive interrupt occurs while it waits) changes the RX buffer, head or tail. -/
theorem single_writer_frames (c : Config) (s : State) :
    (∀ uart, (SERIAL_RX_ISR c uart s).serial_rx_buffer_tail = s.serial_rx_buffer_tail
      ∧ (SERIAL_RX_ISR c uart s).tx = s.tx)
    ∧ ((serial_read c s).2.serial_rx_buffer_head = s.serial_rx_buffer_head
      ∧ (serial_read c s).2.serial_rx_buffer = s.serial_rx_buffer
      ∧ (serial_read c s).2.tx = s.tx)
    ∧ ((serial_reset_read_buffer s).serial_rx_buffer_head = s.serial_rx_buffer_head
      ∧ (serial_reset_read_buffer s).serial_rx_buffer = s.serial_rx_buffer
      ∧ (serial_reset_read_buffer s).tx = s.tx)
    ∧ (∀ k, (SERIAL_TX_ISR c k s).1.serial_tx_buffer_head = s.serial_tx_buffer_head
      ∧ (SERIAL_TX_ISR c k s).1.serial_tx_buffer = s.serial_tx_buffer
      ∧ (SERIAL_TX_ISR c k s).1.rx = s.rx)
    ∧ (∀ d k sched, (∀ i ∈ sched, Interrupt.rx i = none) →
        (serial_write c d k sched s).state.rx = s.rx) := by
  refine ⟨fun uart => ⟨rx_isr_rx_tail c uart s, rx_isr_tx c uart s⟩, ?_, ⟨rfl, rfl, rfl⟩, ?_, ?_⟩
  · obtain ⟨t, ht⟩ := serial_read_frame c s
    rw [ht]
    exact ⟨rfl, rfl, rfl⟩
  · intro k
    obtain ⟨t, ht⟩ := tx_isr_frame c k s
    rw [ht]
    exact ⟨rfl, rfl, rfl⟩
  · intro d k sched hs
    simp only [serial_write]
    exact serial_write_wait_rx c _ _ k sched hs s []

/-- Witness for C18: the stock constants; a write from the initial state that is
followed by its drain step leaves the RX buffer, head and tail as they were. -/
theorem single_writer_frames_witness :
    (serial_write grbl_defaults 0x6f 1 [Interrupt.transmit 1] State.initial).state.rx
      = State.initial.rx :=
  (single_writer_frames grbl_defaults State.initial).2.2.2.2 0x6f 1 [Interrupt.transmit 1]
    (by decide)

/-- C19: TX blocking behaviour. Starting from an empty TX buffer with the UART
refusing every character, `TX_BUFFER_SIZE` successive `serial_write` calls all
return and fill the buffer with their bytes. The next `serial_write d`, with the
reset flag clear, is still waiting with the state unmodified however often it
evaluates its loop condition (`n` times) while no interrupt occurs; when a
transmit interrupt then drains one byte (the tail advances by one slot), the call
completes: it stores `d` at the head slot it observed before waiting, advances
the head by one modulo `TX_RING_BUFFER` and runs its own drain step. The ring has
between 2 and 256 slots. -/
theorem serial_write_blocks_until_drained (c : Config) (s : State) (ds : List Nat)
    (d k n : Nat) (sched : List Interrupt)
    (hsize : c.TX_BUFFER_SIZE ≤ 255) (hpos : 0 < c.TX_BUFFER_SIZE)
    (hr : tx_in_range c s) (hempty : s.serial_tx_buffer_head = s.serial_tx_buffer_tail)
    (hlen : ds.length = c.TX_BUFFER_SIZE) (hds : ∀ x ∈ ds, x < 256) (hd : d < 256)
    (hreset : s.sys_rt_exec_state &&& c.EXEC_RESET = 0) :
    serial_write_all c ds s = some (ds.foldl (tx_stored c) s)
    ∧ tx_pending c (ds.foldl (tx_stored c) s) = ds
    ∧ ((ds.foldl (tx_stored c) s).serial_tx_buffer_head + 1) % TX_RING_BUFFER c
        = (ds.foldl (tx_stored c) s).serial_tx_buffer_tail
    ∧ serial_write c d k (List.replicate n Interrupt.idle) (ds.foldl (tx_stored c) s)
        = .waiting (ds.foldl (tx_stored c) s) []
    ∧ (SERIAL_TX_ISR c 1 (ds.foldl (tx_stored c) s)).1
        = { ds.foldl (tx_stored c) s with serial_tx_buffer_tail :=
              ((ds.foldl (tx_stored c) s).serial_tx_buffer_tail + 1) % TX_RING_BUFFER c }
    ∧ serial_write c d k (List.replicate n Interrupt.idle ++ Interrupt.transmit 1 :: sched)
          (ds.foldl (tx_stored c) s)
        = .returned
            (SERIAL_TX_ISR c k
              (tx_stored c (SERIAL_TX_ISR c 1 (ds.foldl (tx_stored c) s)).1 d)).1
            ((SERIAL_TX_ISR c 1 (ds.foldl (tx_stored c) s)).2
              ++ (SERIAL_TX_ISR c k
                    (tx_stored c (SERIAL_TX_ISR c 1 (ds.foldl (tx_stored c) s)).1 d)).2)
    ∧ (tx_stored c (SERIAL_TX_ISR c 1 (ds.foldl (tx_stored c) s)).1 d).serial_tx_buffer
          (ds.foldl (tx_stored c) s).serial_tx_buffer_head = d
    ∧ (tx_stored c (SERIAL_TX_ISR c 1 (ds.foldl (tx_stored c) s)).1 d).serial_tx_buffer_head
        = ((ds.foldl (tx_stored c) s).serial_tx_buffer_head + 1) % TX_RING_BUFFER c
    ∧ tx_pending c (tx_stored c (SERIAL_TX_ISR c 1 (ds.foldl (tx_stored c) s)).1 d)
        = ds.drop 1 ++ [d] := by
  have hp0 : tx_pending c s = [] := by
    simp [tx_pending, hempty, ring_pending_self]
  obtain ⟨f1, f2, f3, _, f5⟩ := serial_write_all_fills c hsize ds s hr hds
    (by rw [hp0]; simp; omega)
  rw [hp0, List.nil_append] at f3
  generalize ds.foldl (tx_stored c) s = full at *
  have hR : TX_RING_BUFFER c = c.TX_BUFFER_SIZE + 1 := rfl
  have hfull : (full.serial_tx_buffer_head + 1) % TX_RING_BUFFER c = full.serial_tx_buffer_tail :=
    (ring_full_iff (TX_RING_BUFFER c) full.serial_tx_buffer _ _ f2.1 f2.2).mpr (by
      have : (tx_pending c full).length = ds.length := by rw [f3]
      rw [hlen] at this
      rw [hR]
      exact this)
  have hres : full.sys_rt_exec_state &&& c.EXEC_RESET = 0 := by rw [f5]; exact hreset
  obtain ⟨d1, d2, d3⟩ := tx_drain_spec c hsize 1 full f2
  have hmin : min 1 (tx_pending c full).length = 1 := by rw [f3, hlen]; omega
  rw [hmin] at d1
  have hdr : (SERIAL_TX_ISR c 1 full).1
      = { full with serial_tx_buffer_tail :=
            (full.serial_tx_buffer_tail + 1) % TX_RING_BUFFER c } := d1
  have hdp : tx_pending c (SERIAL_TX_ISR c 1 full).1 = ds.drop 1 := by
    have : tx_pending c (SERIAL_TX_ISR c 1 full).1 = (tx_pending c full).drop 1 := d3
    rw [this, f3]
  have hdh : (SERIAL_TX_ISR c 1 full).1.serial_tx_buffer_head = full.serial_tx_buffer_head := by
    rw [hdr]
  have hdt : (SERIAL_TX_ISR c 1 full).1.serial_tx_buffer_tail
      = (full.serial_tx_buffer_tail + 1) % TX_RING_BUFFER c := by
    rw [hdr]
  have hmoved : full.serial_tx_buffer_tail ≠ (SERIAL_TX_ISR c 1 full).1.serial_tx_buffer_tail := by
    rw [hdt]
    exact (succ_mod_ne _ _ f2.2 (by rw [hR]; omega)).symm
  have hroom : ((SERIAL_TX_ISR c 1 full).1.serial_tx_buffer_head + 1) % TX_RING_BUFFER c
      ≠ (SERIAL_TX_ISR c 1 full).1.serial_tx_buffer_tail := by
    rw [hdh, hfull]
    exact hmoved
  have hdr2 : tx_in_range c (SERIAL_TX_ISR c 1 full).1 := tx_isr_in_range c 1 full hsize f2
  refine ⟨f1, f3, hfull, ?_, hdr, ?_, ?_, ?_, ?_⟩
  · rw [serial_write_full c full d k _ hsize f2.1 hfull]
    exact serial_write_wait_idle c _ k n full [] hres
  · rw [serial_write_full c full d k _ hsize f2.1 hfull,
      serial_write_wait_idle_then c _ k n full _ sched hres]
    have hu : UART0IntHandler c (Interrupt.transmit 1) full = SERIAL_TX_ISR c 1 full := rfl
    rw [hu, serial_write_wait_room c _ _ k sched _ _ hmoved, Nat.mod_eq_of_lt hd]
    simp only [serial_write_store]
    have hst : ({ (SERIAL_TX_ISR c 1 full).1 with
          serial_tx_buffer := Function.update (SERIAL_TX_ISR c 1 full).1.serial_tx_buffer
            (SERIAL_TX_ISR c 1 full).1.serial_tx_buffer_head d,
          serial_tx_buffer_head := full.serial_tx_buffer_tail } : State)
        = tx_stored c (SERIAL_TX_ISR c 1 full).1 d := by
      simp only [tx_stored]
      rw [hdh, hfull]
    rw [hst]
  · simp [tx_stored, hdh]
  · simp [tx_stored, hdh]
  · rw [tx_stored_pending c _ d hdr2 hroom, hdp]

set_option maxRecDepth 100000 in
/-- Witness for C19: the stock constants; 104 writes of `o` fill the buffer from
the initial state, the next write is still waiting after three evaluations, and
after a one-byte drain it advances the head from 104 to 0. -/
theorem serial_write_blocks_until_drained_witness :
    serial_write grbl_defaults 0x21 0 (List.replicate 3 Interrupt.idle)
        ((List.replicate 104 0x6f).foldl (tx_stored grbl_defaults) State.initial)
      = .waiting ((List.replicate 104 0x6f).foldl (tx_stored grbl_defaults) State.initial) []
    ∧ (tx_stored grbl_defaults (SERIAL_TX_ISR grbl_defaults 1
          ((List.replicate 104 0x6f).foldl (tx_stored grbl_defaults) State.initial)).1
          0x21).serial_tx_buffer_head = 0 :=
  have h := serial_write_blocks_until_drained grbl_defaults State.initial
    (List.replicate 104 0x6f) 0x21 0 3 []
    (by decide) (by decide) (by decide) (by decide) (by decide)
    (by intro x hx; rw [List.eq_of_mem_replicate hx]; decide) (by decide) (by decide)
  ⟨h.2.2.2.1, h.2.2.2.2.2.2.2.1.trans (by decide)⟩

/-- C20: sentinel non-ambiguity. In every state reachable from the initial state
through `SERIAL_RX_ISR` (on any stream), `serial_read` and
`serial_reset_read_buffer`, every pending byte is at most `0x7F` and is none of the
four low-range real-time bytes; so `serial_read` on a non-empty buffer returns a
value at most `0x7F`, and when `SERIAL_NO_DATA` is above `0x7F`, `serial_read`
returns `SERIAL_NO_DATA` if and only if the buffer was empty. The ring has at most
256 slots. -/
theorem rx_pending_always_data (c : Config) (calls : List RxCall)
    (hsize : c.RX_BUFFER_SIZE ≤ 255) :
    (∀ x ∈ rx_pending c (rx_calls c calls State.initial), x ≤ 0x7F ∧ x ∉ low_commands c)
    ∧ ((rx_calls c calls State.initial).serial_rx_buffer_head
          ≠ (rx_calls c calls State.initial).serial_rx_buffer_tail →
        (serial_read c (rx_calls c calls State.initial)).1 ≤ 0x7F)
    ∧ (0x7F < c.SERIAL_NO_DATA →
        ((serial_read c (rx_calls c calls State.initial)).1 = c.SERIAL_NO_DATA
          ↔ (rx_calls c calls State.initial).serial_rx_buffer_head
              = (rx_calls c calls State.initial).serial_rx_buffer_tail)) := by
  have h0 : rx_in_range c State.initial := by
    simp [rx_in_range, State.initial, RX_RING_BUFFER]
  obtain ⟨hr, hp⟩ := rx_calls_data_inv c calls hsize State.initial h0
    (by rw [rx_pending_nil c _ rfl]; simp)
  have hdata : ∀ x ∈ rx_pending c (rx_calls c calls State.initial),
      x ≤ 0x7F ∧ x ∉ low_commands c := by
    intro x hx
    have := hp x hx
    simpa [is_data_byte] using this
  have hread : (rx_calls c calls State.initial).serial_rx_buffer_head
      ≠ (rx_calls c calls State.initial).serial_rx_buffer_tail →
      (serial_read c (rx_calls c calls State.initial)).1 ≤ 0x7F := by
    intro hne
    have := (serial_read_pending c _ hsize hr hne).2
    exact (hdata _ (by rw [this]; simp)).1
  refine ⟨hdata, hread, fun hnd => ⟨fun h => ?_, fun h => ?_⟩⟩
  · by_contra hne
    have := hread hne
    omega
  · simp [serial_read, h]

/-- Witness for C20: the stock constants; the handler receives `G ! 0xFF 1`, the
main program reads once, and the next read returns a byte at most `0x7F`. -/
theorem rx_pending_always_data_witness :
    (serial_read grbl_defaults
        (rx_calls grbl_defaults [.isr [0x47, 0x21, 0xff, 0x31], .read] State.initial)).1 ≤ 0x7F :=
  (rx_pending_always_data grbl_defaults [.isr [0x47, 0x21, 0xff, 0x31], .read]
    (by decide)).2.1 (by decide)

end Grbl
